import Mathlib

/-!
Verification of the slms-geo-portal configuration store (`src/store/index.js`)
and its configuration JSON schema.

The Vuex store is embedded as a pure state-transition system: the module-level
`state` object becomes the `StoreState` structure, every mutation becomes a
function `StoreState → payload → StoreState` (or `Except StoreState StoreState`
when the JavaScript code can throw a `TypeError`: `.error s` models a thrown
exception, carrying the state as mutated up to the throw point), and the two
getters become pure derivations.

The `Group` / `Context` classes and the `findById` traversal live in the
repository's `layersConfig` module, which is not part of the analysed sources;
they are modelled from the specification (§3, §4.2): a single arena of nodes
keyed by numeric id, with `parent` stored as an id and `items` as a list of
child ids, exactly as the specification's design notes prescribe.
-/

/-- A localized label entry, as in the schema's `labels` definition. -/
structure LocLabel where
  language : String
  label : String
deriving DecidableEq, Repr

/-- Modelled from the spec: a time instant of a `wms` layer.  The store code
reads `t.iso8601` on each entry of `layer.times`, so an entry is modelled as a
record carrying its ISO-8601 string. -/
structure TimeEntry where
  iso8601 : String
deriving DecidableEq, Repr

/-- An attribute descriptor inside an `attributes` statistics entry. -/
structure StatAttr where
  labels : List LocLabel
  attr : String
deriving DecidableEq, Repr

/-- A statistics descriptor of a `wms` layer (schema: `attributesStatistics`
or `urlStatistics`). -/
inductive Statistic where
  | attributes (labels : List LocLabel) (attrs : List StatAttr)
  | url (labels : List LocLabel) (url : String)
deriving DecidableEq, Repr

/-- The three layer variants of the catalog. -/
inductive LayerType where
  | wms
  | bingAerial
  | osm
deriving DecidableEq, Repr

/-- Modelled from the spec: a catalog layer (§3).  The store code reads
`l.id`, `l.type`, `l.times` (guarded by `l.type === 'wms'`) and
`l.statistics`; `statistics` is `none` when the field is absent, which is the
only falsy case for the JavaScript truthiness test `layer.statistics`. -/
structure Layer where
  id : Nat
  type : LayerType
  visible : Bool := true
  name : String := ""
  serverUrls : List String := []
  imageFormat : Option String := none
  times : List TimeEntry := []
  statistics : Option (List Statistic) := none
deriving DecidableEq, Repr

/-- Modelled from the spec: a node of the Group/Context tree (§3, design
notes).  Groups and Contexts share one identity space and, in the duck-typed
JavaScript original, one property space; `isGroup` discriminates the two
kinds.  `items` holds child ids in display order, `parent` the enclosing
group's id (`none` for the root). -/
structure Node where
  id : Nat
  isGroup : Bool
  label : String := ""
  labels : List LocLabel := []
  infoFile : Option String := none
  exclusive : Bool := false
  items : List Nat := []
  parent : Option Nat := none
  active : Bool := false
  inlineLegendUrl : Option String := none
  downloadUrl : Option String := none
  layers : List (Option Layer) := []
  times : List TimeEntry := []
deriving DecidableEq, Repr

/-- The root state object of the store (`const state = {...}`).
`nodes` is the arena backing the object graph: `contexts`, `groups`,
`editGroup` and `editContext` hold ids into it where the JavaScript holds
object references.  A context's `layers` entries are `Option Layer` because
`save_context` can store an unresolved (`undefined`) entry. -/
structure StoreState where
  layers : List Layer := []
  contexts : List Nat := []
  groups : Option Nat := none
  nodes : List Node := []
  layerInfo : Option (String × String) := none
  contextsTimes : List (Nat × TimeEntry) := []
  kmlOverlay : Option String := none
  enableFeedback : Bool := false
  activeContextsIds : List Nat := []
  editing : Bool := false
  editGroup : Option Nat := none
  editContext : Option Nat := none
  editLayers : Bool := false
deriving DecidableEq, Repr

/-- Dereference a node id in the arena (a JavaScript object reference). -/
def lookupNode (ns : List Node) (k : Nat) : Option Node :=
  ns.find? (fun n => n.id == k)

/-- In-place mutation of the node with `n.id` (the arena counterpart of
assigning to a field of the referenced object). -/
def setNode (ns : List Node) (n : Node) : List Node :=
  ns.map (fun m => if m.id == n.id then n else m)

/-! ### `Date.parse` on the schema's ISO-8601 strings

`setContextsTimes` sorts time entries with the comparator
`Date.parse(t1.iso8601) - Date.parse(t2.iso8601)`.  `dateParse` reimplements
`Date.parse` for strings of the schema's ISO-8601 pattern, returning
milliseconds since the Unix epoch; forms without an explicit offset are
interpreted as UTC (JavaScript would use the host timezone for date-time
forms, which is outside a pure model), and strings outside the pattern map to
0 where JavaScript yields NaN. -/

/-- Split a character list on a separator character. -/
def splitOnChar (c : Char) : List Char → List (List Char)
  | [] => [[]]
  | x :: xs =>
    if x = c then [] :: splitOnChar c xs
    else
      match splitOnChar c xs with
      | [] => [[x]]
      | g :: gs => (x :: g) :: gs

/-- Parse a non-empty all-digit character list as a natural number. -/
def parseNatChars (cs : List Char) : Option Nat :=
  if cs ≠ [] ∧ cs.all Char.isDigit then
    some (cs.foldl (fun n ch => n * 10 + (ch.toNat - 48)) 0)
  else none

/-- Days from 1970-01-01 of a civil date (proleptic Gregorian). -/
def daysFromCivil (y m d : Int) : Int :=
  let y2 : Int := if m ≤ 2 then y - 1 else y
  let era : Int := (if 0 ≤ y2 then y2 else y2 - 399) / 400
  let yoe : Int := y2 - era * 400
  let mp : Int := (m + 9) % 12
  let doy : Int := (153 * mp + 2) / 5 + d - 1
  let doe : Int := yoe * 365 + yoe / 4 - yoe / 100 + doy
  era * 146097 + doe - 719468

/-- Milliseconds contributed by a fractional-seconds digit group (the first
three digits, right-padded with zeros). -/
def fracMs (cs : List Char) : Option Nat :=
  parseNatChars (List.take 3 (cs ++ ['0', '0', '0']))

/-- Parse the `±HH:MM` digits of a timezone offset, in minutes. -/
def offsetMinutes (cs : List Char) : Option Nat :=
  match splitOnChar ':' cs with
  | [h, m] => do
    let hv ← parseNatChars h
    let mv ← parseNatChars m
    pure (hv * 60 + mv)
  | _ => none

/-- Parse `HH:MM[:SS[.fff]]` as milliseconds past midnight. -/
def timeOfDayMs (cs : List Char) : Option Nat :=
  match splitOnChar ':' cs with
  | [h, m] => do
    let hv ← parseNatChars h
    let mv ← parseNatChars m
    pure (hv * 3600000 + mv * 60000)
  | [h, m, sf] => do
    let hv ← parseNatChars h
    let mv ← parseNatChars m
    match splitOnChar '.' sf with
    | [sec] => do
      let sv ← parseNatChars sec
      pure (hv * 3600000 + mv * 60000 + sv * 1000)
    | [sec, fr] => do
      let sv ← parseNatChars sec
      let fv ← fracMs fr
      pure (hv * 3600000 + mv * 60000 + sv * 1000 + fv)
    | _ => none
  | _ => none

/-- Split the time-of-day part into its local part and its offset in minutes
(`Z`, `+HH:MM`, `-HH:MM`, or no designator). -/
def splitTimeOffset (cs : List Char) : Option (List Char × Int) :=
  if cs.getLast? = some 'Z' then some (cs.dropLast, 0)
  else
    match splitOnChar '+' cs with
    | [base, off] => do
      let ov ← offsetMinutes off
      pure (base, (ov : Int))
    | [_] =>
      match splitOnChar '-' cs with
      | [base, off] => do
        let ov ← offsetMinutes off
        pure (base, -(ov : Int))
      | [_] => some (cs, 0)
      | _ => none
    | _ => none

/-- Parse `YYYY[-MM[-DD]]` as days from the epoch. -/
def dateDays (cs : List Char) : Option Int :=
  match splitOnChar '-' cs with
  | [y] => do
    let yv ← parseNatChars y
    pure (daysFromCivil (yv : Int) 1 1)
  | [y, m] => do
    let yv ← parseNatChars y
    let mv ← parseNatChars m
    pure (daysFromCivil (yv : Int) (mv : Int) 1)
  | [y, m, d] => do
    let yv ← parseNatChars y
    let mv ← parseNatChars m
    let dv ← parseNatChars d
    pure (daysFromCivil (yv : Int) (mv : Int) (dv : Int))
  | _ => none

/-- `Date.parse` on an ISO-8601 string of the schema's pattern, in
milliseconds since the epoch (0 for strings outside the pattern). -/
def dateParse (s : String) : Int :=
  let r : Option Int :=
    match splitOnChar 'T' s.data with
    | [d] => do
      let dv ← dateDays d
      pure (dv * 86400000)
    | [d, t] => do
      let dv ← dateDays d
      let (tl, off) ← splitTimeOffset t
      let tv ← timeOfDayMs tl
      pure (dv * 86400000 + (tv : Int) - off * 60000)
    | _ => none
  r.getD 0

/-! ### The Time Aggregator (`setContextsTimes`) -/

/-- The comparator order used by the `sort` call of `setContextsTimes`. -/
def timeLE (a b : TimeEntry) : Prop :=
  dateParse a.iso8601 ≤ dateParse b.iso8601

instance : DecidableRel timeLE := fun a b =>
  inferInstanceAs (Decidable (dateParse a.iso8601 ≤ dateParse b.iso8601))

instance : IsTotal TimeEntry timeLE :=
  ⟨fun a b => Int.le_total (dateParse a.iso8601) (dateParse b.iso8601)⟩

instance : IsTrans TimeEntry timeLE :=
  ⟨fun _ _ _ h1 h2 => le_trans h1 h2⟩

/-- `Array.prototype.sort` with the comparator
`(t1, t2) => Date.parse(t1.iso8601) - Date.parse(t2.iso8601)`: a stable
ascending sort by parsed instant. -/
def sortTimes (l : List TimeEntry) : List TimeEntry :=
  List.insertionSort timeLE l

/-- The duplicate-removal pass
`.filter((elem, pos, arr) => arr.findIndex(el => el.iso8601 === elem.iso8601) === pos)`:
`arr` is the whole array and `pos` the running position. -/
def dedupTimesAux (arr : List TimeEntry) : Nat → List TimeEntry → List TimeEntry
  | _, [] => []
  | pos, t :: rest =>
    if arr.findIdx (fun u => u.iso8601 == t.iso8601) == pos then
      t :: dedupTimesAux arr (pos + 1) rest
    else dedupTimesAux arr (pos + 1) rest

/-- Keep the first occurrence of each `iso8601` string. -/
def dedupTimes (arr : List TimeEntry) : List TimeEntry :=
  dedupTimesAux arr 0 arr

/-- The per-context aggregation pipeline of `setContextsTimes`:
filter the `wms` member layers having at least one time, concatenate their
`times`, de-duplicate, sort.  `none` models the `TypeError` thrown when the
filter callback dereferences an unresolved (`undefined`) layers entry. -/
def aggTimes (layers : List (Option Layer)) : Option (List TimeEntry) :=
  if layers.any Option.isNone then none
  else
    let ls := (layers.filterMap id).filter
      (fun l => l.type == LayerType.wms && !l.times.isEmpty)
    let cat := ls.foldl (fun acc l => acc ++ l.times) []
    some (sortTimes (dedupTimes cat))

/-- Read of the sparse `contextsTimes` array at a context id. -/
def ctGet (m : List (Nat × TimeEntry)) (k : Nat) : Option TimeEntry :=
  (m.find? (fun p => p.1 == k)).map Prod.snd

/-- Write `contextsTimes[k] = v` on the sparse array model. -/
def ctAssign (m : List (Nat × TimeEntry)) (k : Nat) (v : TimeEntry) :
    List (Nat × TimeEntry) :=
  if m.any (fun p => p.1 == k) then
    m.map (fun p => if p.1 == k then (k, v) else p)
  else m ++ [(k, v)]

/-- The `state.contexts.forEach` loop of `setContextsTimes`: assign each
context's recomputed `times` and collect the latest instant of each non-empty
sequence.  `.error` carries the state at the point of a thrown `TypeError`. -/
def sctGo (m : List (Nat × TimeEntry)) (s : StoreState) :
    List Nat → Except StoreState (StoreState × List (Nat × TimeEntry))
  | [] => .ok (s, m)
  | cid :: rest =>
    match lookupNode s.nodes cid with
    | none => sctGo m s rest
    | some c =>
      match aggTimes c.layers with
      | none => .error s
      | some ts =>
        let s2 : StoreState := { s with nodes := setNode s.nodes { c with times := ts } }
        match ts.getLast? with
        | some t => sctGo (ctAssign m c.id t) s2 rest
        | none => sctGo m s2 rest

/-- `setContextsTimes`: full recompute of every context's `times` and of the
`contextsTimes` array (built from scratch on each run). -/
def setContextsTimes (s : StoreState) : Except StoreState StoreState :=
  match sctGo [] s s.contexts with
  | .ok (s2, m) => .ok { s2 with contextsTimes := m }
  | .error e => .error e

/-! ### Tree operations (modelled from the spec, §4.2)

`findById` is a depth-first search over `items`, returning the first Group or
Context whose `id` matches; the node the method is invoked on is checked
first.  The recursion is structural on a fuel argument; one unit of fuel is
consumed per visited child slot, so `nodes.length + 1` units suffice on any
well-formed tree. -/

/-- Depth-first search over a frontier of child ids. -/
def findFromL (ns : List Node) (target : Nat) : Nat → List Nat → Option Nat
  | 0, _ => none
  | _ + 1, [] => none
  | fuel + 1, cid :: rest =>
    match lookupNode ns cid with
    | none => findFromL ns target fuel rest
    | some n =>
      if n.id = target then some n.id
      else if n.isGroup then
        match findFromL ns target fuel n.items with
        | some r => some r
        | none => findFromL ns target fuel rest
      else findFromL ns target fuel rest

/-- Modelled from the spec: `state.groups.findById(id)` (`Group.findById` of
the `layersConfig` module, which is not among the analysed sources).  Returns
the id of the found node, `none` when no node matches. -/
def findById (s : StoreState) (target : Nat) : Option Nat :=
  match s.groups with
  | none => none
  | some r => findFromL s.nodes target (s.nodes.length + 1) [r]

/-- Dereference the flat `state.contexts` list of context references. -/
def contextList (s : StoreState) : List Node :=
  s.contexts.filterMap (lookupNode s.nodes)

/-! ### The Mutation Engine -/

/-- Payload of the `save_context` mutation. -/
structure SaveContextPayload where
  id : Nat
  label : String := ""
  labels : List LocLabel := []
  infoFile : Option String := none
  active : Bool := false
  inlineLegendUrl : Option String := none
  layerIds : List Nat := []
deriving Repr

/-- The layer re-resolution of `save_context` (line 97):
`layerIds.map(id => state.layers.find(layer => layer.id === id))`.
Note: no `.filter(l => !!l)` follows the `map`, so an id that resolves to no
catalog layer yields an unresolved (`undefined`, here `none`) entry. -/
def resolveLayerIds (catalog : List Layer) (layerIds : List Nat) :
    List (Option Layer) :=
  layerIds.map (fun i => catalog.find? (fun layer => layer.id == i))

/-- The `edit_item` mutation: select a node for editing.  A resolved Group
sets `editGroup`, a resolved Context sets `editContext`; an unresolved id
clears both.  `.error` models the `TypeError` of calling `findById` on a
`null` `state.groups`. -/
def edit_item (s : StoreState) (id : Nat) : Except StoreState StoreState :=
  if s.groups = none then .error s
  else
    match findById s id with
    | some nid =>
      match lookupNode s.nodes nid with
      | some n =>
        if n.isGroup then .ok { s with editGroup := some n.id }
        else .ok { s with editContext := some n.id }
      | none => .ok s
    | none => .ok { s with editGroup := none, editContext := none }

/-- The `delete_item` mutation: splice the node out of its parent's `items`.
The code reads `item.parent.items` without a guard, so an unresolved id
(`item === undefined`) and a parentless root both throw a `TypeError`,
modelled by `.error`. -/
def delete_item (s : StoreState) (id : Nat) : Except StoreState StoreState :=
  if s.groups = none then .error s
  else
    match findById s id with
    | none => .error s
    | some nid =>
      match lookupNode s.nodes nid with
      | none => .error s
      | some n =>
        match n.parent with
        | none => .error s
        | some pid =>
          match lookupNode s.nodes pid with
          | none => .error s
          | some pg =>
            let pg2 : Node := { pg with items := pg.items.eraseP (fun i => i == id) }
            .ok { s with nodes := setNode s.nodes pg2 }

/-- The field overwrites of `save_context` on the found node. -/
def savedContext (c : Node) (p : SaveContextPayload) (catalog : List Layer) : Node :=
  { c with
    label := p.label, labels := p.labels, infoFile := p.infoFile,
    active := p.active, inlineLegendUrl := p.inlineLegendUrl,
    layers := resolveLayerIds catalog p.layerIds }

/-- The `save_context` mutation: overwrite the found node's fields, re-resolve
`layers` from `layerIds` against the live catalog, then recompute the context
times.  `.error` models a `TypeError` (unresolved id, or an unresolved layers
entry hit by `setContextsTimes`). -/
def save_context (s : StoreState) (p : SaveContextPayload) :
    Except StoreState StoreState :=
  if s.groups = none then .error s
  else
    match findById s p.id with
    | none => .error s
    | some nid =>
      match lookupNode s.nodes nid with
      | none => .error s
      | some c =>
        setContextsTimes { s with nodes := setNode s.nodes (savedContext c p s.layers) }

/-- Payload of `receive_layers`: the already-constructed configuration
(catalog, flat context-id list, node arena, root group id). -/
structure LayersConf where
  layers : List Layer
  contexts : List Nat
  nodes : List Node
  root : Nat
deriving Repr

/-- The `receive_layers` mutation (initial load): install the configuration,
recompute the times, seed the active-set from each context's `active` flag. -/
def receive_layers (s : StoreState) (conf : LayersConf) :
    Except StoreState StoreState :=
  let s1 : StoreState := { s with
    layers := conf.layers
    contexts := conf.contexts
    nodes := conf.nodes
    groups := some conf.root }
  match setContextsTimes s1 with
  | .error e => .error e
  | .ok s2 =>
    .ok { s2 with activeContextsIds :=
      (contextList s2).foldl (fun a c => if c.active then a ++ [c.id] else a) [] }

/-- The `toggle_context` mutation: when the id resolves in the flat context
list, flip its membership in `activeContextsIds` (push if absent, splice out
the first occurrence if present). -/
def toggle_context (s : StoreState) (contextId : Nat) : StoreState :=
  if ((contextList s).find? (fun c => c.id == contextId)).isSome then
    if s.activeContextsIds.contains contextId then
      { s with activeContextsIds := s.activeContextsIds.erase contextId }
    else
      { s with activeContextsIds := s.activeContextsIds ++ [contextId] }
  else s

/-- One step of the parent re-stamping loop of `update_group`:
`item.parent = group` for the item with id `vid`. -/
def stampStep (gid : Nat) (acc : List Node) (vid : Nat) : List Node :=
  match lookupNode acc vid with
  | some n => setNode acc { n with parent := some gid }
  | none => acc

/-- The parent re-stamping loop of `update_group`:
`group.items.forEach(item => { item.parent = group })`. -/
def stampParents (ns : List Node) (gid : Nat) (value : List Nat) : List Node :=
  value.foldl (stampStep gid) ns

/-- The `update_group` mutation (reparent): replace the found node's `items`
with `value` and re-stamp every listed item's `parent`.  The guard
`if (group)` covers only the assignment; the following
`group.items.forEach(...)` dereferences `group` unconditionally, so an
unresolved `groupId` throws a `TypeError`, modelled by `.error`. -/
def update_group (s : StoreState) (groupId : Nat) (value : List Nat) :
    Except StoreState StoreState :=
  if s.groups = none then .error s
  else
    match findById s groupId with
    | none => .error s
    | some nid =>
      match lookupNode s.nodes nid with
      | none => .error s
      | some g =>
        .ok { s with nodes :=
          stampParents (setNode s.nodes { g with items := value }) g.id value }

/-- The per-context body of `update_layers`: re-resolve each existing layer
entry against the new catalog and drop the unresolved results
(`.map(layer => value.find(l => l.id === layer.id)).filter(l => !!l)`). -/
def reResolveLayers (value : List Layer) (old : List (Option Layer)) :
    List (Option Layer) :=
  (old.filterMap id).map (fun layer => value.find? (fun l => l.id == layer.id))
    |>.filter Option.isSome

/-- The `state.contexts.forEach` loop of `update_layers`.  Reading `layer.id`
on an unresolved entry of a context's current `layers` throws a `TypeError`,
modelled by `.error`. -/
def ulGo (value : List Layer) (s : StoreState) :
    List Nat → Except StoreState StoreState
  | [] => .ok s
  | cid :: rest =>
    match lookupNode s.nodes cid with
    | none => ulGo value s rest
    | some c =>
      if c.layers.any Option.isNone then .error s
      else
        ulGo value
          { s with nodes := setNode s.nodes { c with layers := reResolveLayers value c.layers } }
          rest

/-- The `update_layers` mutation (replace layer catalog): swap the catalog,
re-resolve every context's `layers` against it, recompute the times. -/
def update_layers (s : StoreState) (value : List Layer) :
    Except StoreState StoreState :=
  match ulGo value { s with layers := value } s.contexts with
  | .error e => .error e
  | .ok s1 => setContextsTimes s1

/-! ### Getters (Active-Set Resolver) -/

/-- The duplicate-removal pass of `activeLayers`:
`.filter((elem, pos, arr) => arr.indexOf(elem) === pos)`. -/
def dedupLayersAux (arr : List (Option Layer)) :
    Nat → List (Option Layer) → List (Option Layer)
  | _, [] => []
  | pos, o :: rest =>
    if arr.findIdx (fun u => u == o) == pos then
      o :: dedupLayersAux arr (pos + 1) rest
    else dedupLayersAux arr (pos + 1) rest

/-- Keep the first occurrence of each layer reference. -/
def dedupLayers (arr : List (Option Layer)) : List (Option Layer) :=
  dedupLayersAux arr 0 arr

/-- The `activeLayers` getter: the layers of every context whose id is in
`activeContextsIds`, in context-list order then per-context order, duplicates
removed (first occurrence wins). -/
def activeLayers (s : StoreState) : List (Option Layer) :=
  let als := ((contextList s).filter
      (fun c => s.activeContextsIds.contains c.id)).foldl
    (fun acc c => acc ++ c.layers) []
  dedupLayers als

/-- The `queryableLayers` getter:
`getters.activeLayers.filter(layer => layer.statistics)`.  The JavaScript
truthiness test keeps exactly the layers whose `statistics` field is present
(an empty array is truthy); `none` models the `TypeError` of reading
`.statistics` on an unresolved entry. -/
def queryableLayers (s : StoreState) : Option (List (Option Layer)) :=
  if (activeLayers s).any Option.isNone then none
  else
    some ((activeLayers s).filter (fun o =>
      match o with
      | some l => l.statistics.isSome
      | none => false))

/-! ### Basic facts about the arena -/

instance : DecidableEq (Except StoreState StoreState) := fun a b =>
  match a, b with
  | .ok x, .ok y =>
    if h : x = y then isTrue (by rw [h]) else isFalse (by simp [h])
  | .error x, .error y =>
    if h : x = y then isTrue (by rw [h]) else isFalse (by simp [h])
  | .ok _, .error _ => isFalse (by simp)
  | .error _, .ok _ => isFalse (by simp)

theorem lookupNode_id {ns : List Node} {k : Nat} {n : Node}
    (h : lookupNode ns k = some n) : n.id = k := by
  have := List.find?_some h
  simpa using this

theorem lookupNode_setNode (ns : List Node) (n : Node) (k : Nat) :
    lookupNode (setNode ns n) k
      = (lookupNode ns k).map (fun m => if m.id == n.id then n else m) := by
  have hpf : ((fun x : Node => x.id == k) ∘ (fun m : Node => if m.id == n.id then n else m))
      = (fun x : Node => x.id == k) := by
    funext m
    by_cases hm : m.id = n.id
    · simp [Function.comp, hm]
    · simp [Function.comp, hm]
  unfold lookupNode setNode
  rw [List.find?_map, hpf]

theorem lookupNode_setNode_ne {ns : List Node} {n : Node} {k : Nat}
    (h : k ≠ n.id) : lookupNode (setNode ns n) k = lookupNode ns k := by
  rw [lookupNode_setNode]
  cases hl : lookupNode ns k with
  | none => rfl
  | some m =>
    have hm : m.id = k := lookupNode_id hl
    have hne : m.id ≠ n.id := by rw [hm]; exact h
    simp [hne]

theorem lookupNode_setNode_self {ns : List Node} {n m : Node}
    (h : lookupNode ns n.id = some m) :
    lookupNode (setNode ns n) n.id = some n := by
  rw [lookupNode_setNode, h]
  have heq : m.id = n.id := lookupNode_id h
  simp [heq]

theorem lookupNode_setNode_none {ns : List Node} {n : Node} {k : Nat}
    (h : lookupNode ns k = none) : lookupNode (setNode ns n) k = none := by
  rw [lookupNode_setNode, h]
  rfl

theorem timeEntry_eq_of_iso {a b : TimeEntry} (h : a.iso8601 = b.iso8601) :
    a = b := by
  cases a; cases b; simpa using h

/-! ### Properties of the de-duplication pass -/

theorem findIdx_append_cons_le {p : TimeEntry → Bool} {r : TimeEntry}
    (front rest : List TimeEntry) (hp : p r = true) :
    (front ++ r :: rest).findIdx p ≤ front.length := by
  induction front with
  | nil => simp [List.findIdx_cons, hp]
  | cons x f ih =>
    simp only [List.cons_append, List.findIdx_cons, List.length_cons]
    cases hx : p x with
    | true => simp
    | false => simpa using Nat.succ_le_succ ih

theorem findIdx_append_cons_lt {p : TimeEntry → Bool} {r : TimeEntry}
    (front rest : List TimeEntry) (hp : p r = false)
    (hge : front.length ≤ (front ++ r :: rest).findIdx p) :
    front.length + 1 ≤ (front ++ r :: rest).findIdx p := by
  induction front with
  | nil =>
    simp only [List.nil_append, List.length_nil, List.findIdx_cons, hp, cond_false]
    omega
  | cons x f ih =>
    simp only [List.cons_append, List.findIdx_cons, List.length_cons] at hge ⊢
    cases hx : p x with
    | true => simp [hx] at hge
    | false =>
      simp only [hx, cond_false] at hge ⊢
      have := ih (by omega)
      omega

theorem mem_of_mem_dedupTimesAux {arr : List TimeEntry} {t : TimeEntry} :
    ∀ {rest : List TimeEntry} {pos : Nat},
      t ∈ dedupTimesAux arr pos rest → t ∈ rest := by
  intro rest
  induction rest with
  | nil => intro pos h; simp [dedupTimesAux] at h
  | cons r rest2 ih =>
    intro pos h
    simp only [dedupTimesAux] at h
    split at h
    · rcases List.mem_cons.mp h with h1 | h1
      · exact h1 ▸ List.mem_cons_self r rest2
      · exact List.mem_cons_of_mem r (ih h1)
    · exact List.mem_cons_of_mem r (ih h)

theorem mem_dedupTimesAux_of_mem {arr : List TimeEntry} {t : TimeEntry} :
    ∀ (rest front : List TimeEntry), t ∈ rest → arr = front ++ rest →
      front.length ≤ arr.findIdx (fun u => u.iso8601 == t.iso8601) →
      t ∈ dedupTimesAux arr front.length rest := by
  intro rest
  induction rest with
  | nil => intro front h; simp at h
  | cons r rest2 ih =>
    intro front hmem harr hge
    by_cases hiso : r.iso8601 = t.iso8601
    · have hrt : r = t := timeEntry_eq_of_iso hiso
      have hp : (fun u => u.iso8601 == t.iso8601) r = true := by
        simp [hiso]
      have hle : arr.findIdx (fun u => u.iso8601 == t.iso8601) ≤ front.length := by
        rw [harr]; exact findIdx_append_cons_le front rest2 hp
      have heq : arr.findIdx (fun u => u.iso8601 == t.iso8601) = front.length :=
        Nat.le_antisymm hle hge
      have heq2 : arr.findIdx (fun u => u.iso8601 == r.iso8601) = front.length := by
        have hfun : (fun u : TimeEntry => u.iso8601 == r.iso8601)
            = (fun u : TimeEntry => u.iso8601 == t.iso8601) := by
          funext u; rw [hiso]
        rw [hfun]; exact heq
      have hstep : dedupTimesAux arr front.length (r :: rest2)
          = r :: dedupTimesAux arr (front.length + 1) rest2 := by
        simp [dedupTimesAux, heq2]
      rw [hstep]
      exact hrt ▸ List.mem_cons_self r _
    · have hmem2 : t ∈ rest2 := by
        rcases List.mem_cons.mp hmem with h1 | h1
        · exact absurd (congrArg TimeEntry.iso8601 h1.symm) hiso
        · exact h1
      have hp : (fun u => u.iso8601 == t.iso8601) r = false := by
        simp [hiso]
      have hlt : front.length + 1 ≤ arr.findIdx (fun u => u.iso8601 == t.iso8601) := by
        rw [harr] at hge ⊢
        exact findIdx_append_cons_lt front rest2 hp hge
      have harr2 : arr = (front ++ [r]) ++ rest2 := by simp [harr]
      have hrec := ih (front ++ [r]) hmem2 harr2 (by simpa using hlt)
      simp only [List.length_append, List.length_cons, List.length_nil] at hrec
      simp only [dedupTimesAux]
      split
      · exact List.mem_cons_of_mem r (by simpa using hrec)
      · simpa using hrec

theorem mem_dedupTimes {arr : List TimeEntry} {t : TimeEntry} :
    t ∈ dedupTimes arr ↔ t ∈ arr := by
  constructor
  · exact mem_of_mem_dedupTimesAux
  · intro h
    have := @mem_dedupTimesAux_of_mem arr _ arr [] h (by simp) (by simp)
    simpa [dedupTimes] using this

theorem findIdx_ge_of_mem_dedupTimesAux {arr : List TimeEntry} {u : TimeEntry} :
    ∀ {rest : List TimeEntry} {pos : Nat},
      u ∈ dedupTimesAux arr pos rest →
      pos ≤ arr.findIdx (fun w => w.iso8601 == u.iso8601) := by
  intro rest
  induction rest with
  | nil => intro pos h; simp [dedupTimesAux] at h
  | cons r rest2 ih =>
    intro pos h
    simp only [dedupTimesAux] at h
    split at h
    · next hkeep =>
      rcases List.mem_cons.mp h with h1 | h1
      · have : arr.findIdx (fun w => w.iso8601 == u.iso8601) = pos := by
          have hfun : (fun w : TimeEntry => w.iso8601 == r.iso8601)
              = (fun w : TimeEntry => w.iso8601 == u.iso8601) := by
            funext w; rw [h1]
          rw [← hfun]
          simpa using hkeep
        omega
      · have := ih h1; omega
    · have := ih h; omega

theorem pairwise_dedupTimesAux {arr : List TimeEntry} :
    ∀ (rest : List TimeEntry) (pos : Nat),
      List.Pairwise (fun a b => a.iso8601 ≠ b.iso8601) (dedupTimesAux arr pos rest) := by
  intro rest
  induction rest with
  | nil => intro pos; simp [dedupTimesAux]
  | cons r rest2 ih =>
    intro pos
    simp only [dedupTimesAux]
    split
    · next hkeep =>
      refine List.Pairwise.cons ?_ (ih (pos + 1))
      intro u hu hiso
      have hge := findIdx_ge_of_mem_dedupTimesAux hu
      have hfun : (fun w : TimeEntry => w.iso8601 == u.iso8601)
          = (fun w : TimeEntry => w.iso8601 == r.iso8601) := by
        funext w; rw [hiso]
      rw [hfun] at hge
      have heq : arr.findIdx (fun w => w.iso8601 == r.iso8601) = pos := by
        simpa using hkeep
      omega
    · exact ih (pos + 1)

theorem pairwise_dedupTimes (arr : List TimeEntry) :
    List.Pairwise (fun a b => a.iso8601 ≠ b.iso8601) (dedupTimes arr) :=
  pairwise_dedupTimesAux arr 0

/-! ### Properties of the sorting pass -/

theorem sortTimes_sorted (l : List TimeEntry) :
    List.Pairwise timeLE (sortTimes l) :=
  List.sorted_insertionSort timeLE l

theorem sortTimes_perm (l : List TimeEntry) : (sortTimes l).Perm l :=
  List.perm_insertionSort timeLE l

theorem mem_sortTimes {l : List TimeEntry} {t : TimeEntry} :
    t ∈ sortTimes l ↔ t ∈ l :=
  (sortTimes_perm l).mem_iff

theorem pairwise_iso_sortTimes {l : List TimeEntry}
    (h : List.Pairwise (fun a b => a.iso8601 ≠ b.iso8601) l) :
    List.Pairwise (fun a b => a.iso8601 ≠ b.iso8601) (sortTimes l) :=
  ((sortTimes_perm l).pairwise_iff (fun hxy => Ne.symm hxy)).mpr h

theorem mem_of_getLast? {l : List TimeEntry} {t : TimeEntry}
    (h : l.getLast? = some t) : t ∈ l := by
  induction l with
  | nil => simp at h
  | cons a l2 ih =>
    cases l2 with
    | nil =>
      simp only [List.getLast?_singleton, Option.some.injEq] at h
      simp [h]
    | cons b l3 =>
      rw [List.getLast?_cons_cons] at h
      exact List.mem_cons_of_mem a (ih h)

theorem timeLE_getLast {l : List TimeEntry} {t : TimeEntry}
    (hs : List.Pairwise timeLE l) (h : l.getLast? = some t) :
    ∀ u ∈ l, timeLE u t := by
  induction l with
  | nil => simp
  | cons a l2 ih =>
    intro u hu
    cases l2 with
    | nil =>
      simp only [List.getLast?_singleton, Option.some.injEq] at h
      rcases List.mem_cons.mp hu with h1 | h1
      · subst h1; rw [← h]; exact le_refl _
      · simp at h1
    | cons b l3 =>
      rw [List.getLast?_cons_cons] at h
      have hpair := List.pairwise_cons.mp hs
      rcases List.mem_cons.mp hu with h1 | h1
      · subst h1
        exact hpair.1 t (mem_of_getLast? h)
      · exact ih hpair.2 h u h1

/-! ### Characterisation of the per-context aggregation -/

theorem mem_foldl_append {t : TimeEntry} :
    ∀ (ls : List Layer) (acc : List TimeEntry),
      t ∈ ls.foldl (fun acc l => acc ++ l.times) acc
        ↔ t ∈ acc ∨ ∃ l ∈ ls, t ∈ l.times := by
  intro ls
  induction ls with
  | nil => intro acc; simp
  | cons x xs ih =>
    intro acc
    rw [List.foldl_cons, ih]
    simp only [List.mem_append, List.mem_cons]
    constructor
    · rintro (⟨h | h⟩ | ⟨l, hl, hm⟩)
      · exact Or.inl h
      · exact Or.inr ⟨x, Or.inl rfl, h⟩
      · exact Or.inr ⟨l, Or.inr hl, hm⟩
    · rintro (h | ⟨l, (rfl | hl), hm⟩)
      · exact Or.inl (Or.inl h)
      · exact Or.inl (Or.inr hm)
      · exact Or.inr ⟨l, hl, hm⟩

theorem aggTimes_some_all {ls : List (Option Layer)} {l : List TimeEntry}
    (h : aggTimes ls = some l) :
    (∀ t, t ∈ l ↔ ∃ lay, some lay ∈ ls ∧ lay.type = LayerType.wms
        ∧ lay.times ≠ [] ∧ t ∈ lay.times)
    ∧ List.Pairwise timeLE l
    ∧ List.Pairwise (fun a b => a.iso8601 ≠ b.iso8601) l := by
  unfold aggTimes at h
  split at h
  · exact absurd h (by simp)
  · have hl : l = sortTimes (dedupTimes
        (((ls.filterMap id).filter
          (fun l => l.type == LayerType.wms && !l.times.isEmpty)).foldl
            (fun acc l => acc ++ l.times) [])) := by
      exact (Option.some_inj.mp h).symm
    subst hl
    refine ⟨?_, sortTimes_sorted _, pairwise_iso_sortTimes (pairwise_dedupTimes _)⟩
    intro t
    rw [mem_sortTimes, mem_dedupTimes, mem_foldl_append]
    constructor
    · rintro (hnil | ⟨lay, hlay, hmem⟩)
      · simp at hnil
      · rw [List.mem_filter] at hlay
        obtain ⟨hmem2, hprop⟩ := hlay
        rw [List.mem_filterMap] at hmem2
        obtain ⟨o, ho, hid⟩ := hmem2
        simp only [id_eq] at hid
        subst hid
        rw [Bool.and_eq_true, beq_iff_eq] at hprop
        refine ⟨lay, ho, hprop.1, fun hn => ?_, hmem⟩
        have := hprop.2
        rw [hn] at this
        simp at this
    · rintro ⟨lay, ho, htype, hnil, hmem⟩
      refine Or.inr ⟨lay, ?_, hmem⟩
      rw [List.mem_filter]
      refine ⟨?_, ?_⟩
      · rw [List.mem_filterMap]
        exact ⟨some lay, ho, rfl⟩
      · rw [Bool.and_eq_true, beq_iff_eq]
        exact ⟨htype, by simpa using hnil⟩

theorem aggTimes_isSome {ls : List (Option Layer)}
    (h : ¬ ls.any Option.isNone) : (aggTimes ls).isSome := by
  unfold aggTimes
  split
  · next hcontra => exact absurd hcontra h
  · rfl

/-! ### Facts about the `contextsTimes` sparse array -/

theorem ctAssign_comp (k k2 : Nat) (v : TimeEntry) :
    ((fun q : Nat × TimeEntry => q.1 == k)
      ∘ (fun p : Nat × TimeEntry => if p.1 == k2 then (k2, v) else p))
      = (fun q : Nat × TimeEntry => q.1 == k) := by
  funext p
  by_cases hp : p.1 = k2
  · simp [Function.comp, hp]
  · simp [Function.comp, hp]

theorem ctGet_ctAssign_self (m : List (Nat × TimeEntry)) (k : Nat) (v : TimeEntry) :
    ctGet (ctAssign m k v) k = some v := by
  unfold ctAssign
  split
  · next hany =>
    unfold ctGet
    rw [List.find?_map, ctAssign_comp k k v]
    have hsome : (m.find? (fun q : Nat × TimeEntry => q.1 == k)).isSome := by
      rw [List.find?_isSome]
      exact List.any_eq_true.mp hany
    obtain ⟨q, hq⟩ := Option.isSome_iff_exists.mp hsome
    rw [hq]
    have hqk : q.1 = k := by simpa using List.find?_some hq
    simp [hqk]
  · next hany =>
    unfold ctGet
    rw [List.find?_append]
    have hnone : m.find? (fun q : Nat × TimeEntry => q.1 == k) = none := by
      rw [List.find?_eq_none]
      intro x hx hpx
      exact hany (List.any_eq_true.mpr ⟨x, hx, hpx⟩)
    rw [hnone]
    simp [List.find?_cons]

theorem ctGet_ctAssign_ne {m : List (Nat × TimeEntry)} {k k2 : Nat} {v : TimeEntry}
    (h : k ≠ k2) : ctGet (ctAssign m k2 v) k = ctGet m k := by
  unfold ctAssign
  split
  · unfold ctGet
    rw [List.find?_map, ctAssign_comp k k2 v]
    cases hf : List.find? (fun q : Nat × TimeEntry => q.1 == k) m with
    | none => rfl
    | some q =>
      have hq : q.1 = k := by simpa using List.find?_some hf
      have hne : q.1 ≠ k2 := by rw [hq]; exact h
      simp [hne]
  · unfold ctGet
    rw [List.find?_append]
    have hlast : List.find? (fun q : Nat × TimeEntry => q.1 == k) [(k2, v)] = none := by
      rw [List.find?_eq_none]
      intro x hx hpx
      rcases List.mem_singleton.mp hx with rfl
      have hxx : k2 = k := by simpa using hpx
      exact h hxx.symm
    rw [hlast]
    cases List.find? (fun q : Nat × TimeEntry => q.1 == k) m with
    | none => rfl
    | some q => rfl

/-! ### Facts about the forEach loop of `setContextsTimes` -/

theorem sctGo_nil_eq {m : List (Nat × TimeEntry)} {s s2 : StoreState}
    {m2 : List (Nat × TimeEntry)} (h : sctGo m s [] = .ok (s2, m2)) :
    s = s2 ∧ m = m2 := by
  simp only [sctGo] at h
  simpa using h

theorem sctGo_fields : ∀ (L : List Nat) (m : List (Nat × TimeEntry)) (s s2 : StoreState)
    (m2 : List (Nat × TimeEntry)), sctGo m s L = .ok (s2, m2) →
    s2.contexts = s.contexts ∧ s2.contextsTimes = s.contextsTimes
      ∧ s2.layers = s.layers ∧ s2.groups = s.groups
      ∧ s2.activeContextsIds = s.activeContextsIds := by
  intro L
  induction L with
  | nil =>
    intro m s s2 m2 h
    obtain ⟨rfl, rfl⟩ := sctGo_nil_eq h
    exact ⟨rfl, rfl, rfl, rfl, rfl⟩
  | cons c0 rest ih =>
    intro m s s2 m2 h
    simp only [sctGo] at h
    split at h
    · exact ih m s s2 m2 h
    · split at h
      · simp at h
      · split at h
        · have hres := ih _ _ s2 m2 h
          exact hres
        · have hres := ih _ _ s2 m2 h
          exact hres

theorem sctGo_untouched : ∀ (L : List Nat) (m : List (Nat × TimeEntry)) (s s2 : StoreState)
    (m2 : List (Nat × TimeEntry)) (k : Nat), (∀ x ∈ L, x ≠ k) →
    sctGo m s L = .ok (s2, m2) →
    lookupNode s2.nodes k = lookupNode s.nodes k := by
  intro L
  induction L with
  | nil =>
    intro m s s2 m2 k _ h
    obtain ⟨rfl, rfl⟩ := sctGo_nil_eq h
    rfl
  | cons c0 rest ih =>
    intro m s s2 m2 k hne h
    have hc0k : c0 ≠ k := hne c0 (List.mem_cons_self c0 rest)
    have hrestne : ∀ x ∈ rest, x ≠ k := fun x hx => hne x (List.mem_cons_of_mem c0 hx)
    simp only [sctGo] at h
    split at h
    · exact ih m s s2 m2 k hrestne h
    · next c hl =>
      have hcid : c.id = c0 := lookupNode_id hl
      have hkne : k ≠ (⟨c.id, c.isGroup, c.label, c.labels, c.infoFile, c.exclusive,
          c.items, c.parent, c.active, c.inlineLegendUrl, c.downloadUrl, c.layers,
          c.times⟩ : Node).id := by
        intro hk
        exact hc0k (by rw [hcid] at hk; exact hk.symm)
      split at h
      · simp at h
      · split at h
        · rw [ih _ _ s2 m2 k hrestne h]
          exact lookupNode_setNode_ne (by rw [hcid]; exact fun hk => hc0k hk.symm)
        · rw [ih _ _ s2 m2 k hrestne h]
          exact lookupNode_setNode_ne (by rw [hcid]; exact fun hk => hc0k hk.symm)

theorem sctGo_ct_preserved : ∀ (L : List Nat) (m : List (Nat × TimeEntry)) (s s2 : StoreState)
    (m2 : List (Nat × TimeEntry)) (k : Nat), (∀ x ∈ L, x ≠ k) →
    sctGo m s L = .ok (s2, m2) → ctGet m2 k = ctGet m k := by
  intro L
  induction L with
  | nil =>
    intro m s s2 m2 k _ h
    obtain ⟨rfl, rfl⟩ := sctGo_nil_eq h
    rfl
  | cons c0 rest ih =>
    intro m s s2 m2 k hne h
    have hc0k : c0 ≠ k := hne c0 (List.mem_cons_self c0 rest)
    have hrestne : ∀ x ∈ rest, x ≠ k := fun x hx => hne x (List.mem_cons_of_mem c0 hx)
    simp only [sctGo] at h
    split at h
    · exact ih m s s2 m2 k hrestne h
    · next c hl =>
      have hcid : c.id = c0 := lookupNode_id hl
      split at h
      · simp at h
      · split at h
        · rw [ih _ _ s2 m2 k hrestne h]
          exact ctGet_ctAssign_ne (by rw [hcid]; exact fun hk => hc0k hk.symm)
        · exact ih _ _ s2 m2 k hrestne h

theorem sctGo_layers_preserved : ∀ (L : List Nat) (m : List (Nat × TimeEntry))
    (s s2 : StoreState) (m2 : List (Nat × TimeEntry)),
    sctGo m s L = .ok (s2, m2) →
    ∀ k, (lookupNode s2.nodes k).map Node.layers
      = (lookupNode s.nodes k).map Node.layers := by
  intro L
  induction L with
  | nil =>
    intro m s s2 m2 h k
    obtain ⟨rfl, rfl⟩ := sctGo_nil_eq h
    rfl
  | cons c0 rest ih =>
    intro m s s2 m2 h k
    simp only [sctGo] at h
    split at h
    · exact ih m s s2 m2 h k
    · next c hl =>
      have hcid : c.id = c0 := lookupNode_id hl
      split at h
      · simp at h
      · next ts hagg =>
        have hstep : ∀ (ts2 : List TimeEntry),
            (lookupNode (setNode s.nodes { c with times := ts2 }) k).map Node.layers
              = (lookupNode s.nodes k).map Node.layers := by
          intro ts2
          have hlid : lookupNode s.nodes ({ c with times := ts2 } : Node).id = some c := by
            show lookupNode s.nodes c.id = some c
            rw [hcid]
            exact hl
          by_cases hk : k = ({ c with times := ts2 } : Node).id
          · rw [hk]
            rw [lookupNode_setNode_self (m := c) hlid]
            rw [hlid]
            rfl
          · rw [lookupNode_setNode_ne hk]
        split at h
        · rw [ih _ _ s2 m2 h k]
          exact hstep ts
        · rw [ih _ _ s2 m2 h k]
          exact hstep ts

theorem sctGo_entry : ∀ (L : List Nat) (m : List (Nat × TimeEntry)) (s s2 : StoreState)
    (m2 : List (Nat × TimeEntry)), L.Nodup → sctGo m s L = .ok (s2, m2) →
    ∀ cid ∈ L, ∀ n, lookupNode s2.nodes cid = some n →
      ∀ t, n.times.getLast? = some t →
        ctGet m2 cid = some t ∧ ∀ u ∈ n.times, timeLE u t := by
  intro L
  induction L with
  | nil =>
    intro m s s2 m2 _ _ cid hcid
    simp at hcid
  | cons c0 rest ih =>
    intro m s s2 m2 hnd h cid hcid n hn t ht
    rw [List.nodup_cons] at hnd
    obtain ⟨hc0notin, hndrest⟩ := hnd
    simp only [sctGo] at h
    split at h
    · next hl =>
      rcases List.mem_cons.mp hcid with rfl | hcid2
      · have hrestne : ∀ x ∈ rest, x ≠ cid := fun x hx hxeq => hc0notin (hxeq ▸ hx)
        have hunt := sctGo_untouched rest m s s2 m2 cid hrestne h
        rw [hunt, hl] at hn
        exact absurd hn (by simp)
      · exact ih m s s2 m2 hndrest h cid hcid2 n hn t ht
    · next c hl =>
      have hcid0 : c.id = c0 := lookupNode_id hl
      split at h
      · next hagg => simp at h
      · next ts hagg =>
        split at h
        · next t0 hlast =>
          rcases List.mem_cons.mp hcid with rfl | hcid2
          · have hrestne : ∀ x ∈ rest, x ≠ cid := fun x hx hxeq => hc0notin (hxeq ▸ hx)
            have hunt := sctGo_untouched rest _ _ s2 m2 cid hrestne h
            have hlid : lookupNode s.nodes ({ c with times := ts } : Node).id = some c := by
              show lookupNode s.nodes c.id = some c
              rw [hcid0]
              exact hl
            have hself := lookupNode_setNode_self (m := c) hlid
            have hlook : lookupNode (setNode s.nodes { c with times := ts }) cid
                = some { c with times := ts } := by
              rw [← hcid0]
              exact hself
            have hn2 : some ({ c with times := ts } : Node) = some n := by
              rw [← hlook]
              exact hunt.symm.trans hn
            injection hn2 with hn3
            have ht2 : ts.getLast? = some t := by
              rw [← hn3] at ht
              exact ht
            have htt : t = t0 := Option.some.inj (ht2.symm.trans hlast)
            have hctp := sctGo_ct_preserved rest _ _ s2 m2 cid hrestne h
            constructor
            · rw [hctp, hcid0, htt]
              exact ctGet_ctAssign_self m cid t0
            · intro u hu
              have hu2 : u ∈ ts := by
                rw [← hn3] at hu
                exact hu
              have hsorted : List.Pairwise timeLE ts := (aggTimes_some_all hagg).2.1
              have hle := timeLE_getLast hsorted hlast u hu2
              rw [htt]
              exact hle
          · have hres := ih _ _ s2 m2 hndrest h cid hcid2 n hn t ht
            exact hres
        · next hlast =>
          rcases List.mem_cons.mp hcid with rfl | hcid2
          · have hrestne : ∀ x ∈ rest, x ≠ cid := fun x hx hxeq => hc0notin (hxeq ▸ hx)
            have hunt := sctGo_untouched rest _ _ s2 m2 cid hrestne h
            have hlid : lookupNode s.nodes ({ c with times := ts } : Node).id = some c := by
              show lookupNode s.nodes c.id = some c
              rw [hcid0]
              exact hl
            have hself := lookupNode_setNode_self (m := c) hlid
            have hlook : lookupNode (setNode s.nodes { c with times := ts }) cid
                = some { c with times := ts } := by
              rw [← hcid0]
              exact hself
            have hn2 : some ({ c with times := ts } : Node) = some n := by
              rw [← hlook]
              exact hunt.symm.trans hn
            injection hn2 with hn3
            have ht2 : ts.getLast? = some t := by
              rw [← hn3] at ht
              exact ht
            have hx := hlast.symm.trans ht2
            simp at hx
          · have hres := ih _ _ s2 m2 hndrest h cid hcid2 n hn t ht
            exact hres

theorem sctGo_ct_indep : ∀ (L : List Nat) (m : List (Nat × TimeEntry)) (s s2 : StoreState)
    (m2 : List (Nat × TimeEntry)) (ct0 : List (Nat × TimeEntry)),
    sctGo m s L = .ok (s2, m2) →
    sctGo m { s with contextsTimes := ct0 } L = .ok ({ s2 with contextsTimes := ct0 }, m2) := by
  intro L
  induction L with
  | nil =>
    intro m s s2 m2 ct0 h
    obtain ⟨rfl, rfl⟩ := sctGo_nil_eq h
    rfl
  | cons c0 rest ih =>
    intro m s s2 m2 ct0 h
    simp only [sctGo] at h ⊢
    split at h
    · exact ih m s s2 m2 ct0 h
    · split at h
      · simp at h
      · split at h
        · have hres := ih _ _ s2 m2 ct0 h
          exact hres
        · have hres := ih _ _ s2 m2 ct0 h
          exact hres

/-- Claim C4's derived-entry property: for every context in the flat list,
a non-empty `times` sequence puts its last element into `contextsTimes`,
and that element is a latest instant of the sequence. -/
def TimesDerivedAt (s2 : StoreState) : Prop :=
  ∀ cid ∈ s2.contexts, ∀ n, lookupNode s2.nodes cid = some n →
    ∀ t, n.times.getLast? = some t →
      ctGet s2.contextsTimes cid = some t ∧ ∀ u ∈ n.times, timeLE u t

theorem setContextsTimes_ok {s s2 : StoreState}
    (h : setContextsTimes s = .ok s2) :
    ∃ s3 m, sctGo [] s s.contexts = .ok (s3, m)
      ∧ s2 = { s3 with contextsTimes := m } := by
  unfold setContextsTimes at h
  split at h
  · next s3 m heq =>
    exact ⟨s3, m, heq, (Except.ok.inj h).symm⟩
  · simp at h

theorem setContextsTimes_entry {s s2 : StoreState} (hnd : s.contexts.Nodup)
    (h : setContextsTimes s = .ok s2) : TimesDerivedAt s2 := by
  obtain ⟨s3, m, hgo, rfl⟩ := setContextsTimes_ok h
  intro cid hcid n hn t ht
  have hfields := sctGo_fields s.contexts [] s s3 m hgo
  have hcid2 : cid ∈ s.contexts := by
    have : ({ s3 with contextsTimes := m } : StoreState).contexts = s.contexts := hfields.1
    rw [this] at hcid
    exact hcid
  exact sctGo_entry s.contexts [] s s3 m hnd hgo cid hcid2 n hn t ht

theorem setContextsTimes_ct_indep {s s2 : StoreState}
    (ct0 : List (Nat × TimeEntry)) (h : setContextsTimes s = .ok s2) :
    setContextsTimes { s with contextsTimes := ct0 } = .ok s2 := by
  obtain ⟨s3, m, hgo, rfl⟩ := setContextsTimes_ok h
  have hgo2 := sctGo_ct_indep s.contexts [] s s3 m ct0 hgo
  unfold setContextsTimes
  rw [show ({ s with contextsTimes := ct0 } : StoreState).contexts = s.contexts from rfl]
  rw [hgo2]

/-! ### Facts about the forEach loop of `update_layers` -/

theorem ulGo_fields : ∀ (L : List Nat) (v : List Layer) (s s2 : StoreState),
    ulGo v s L = .ok s2 →
    s2.contexts = s.contexts ∧ s2.layers = s.layers ∧ s2.groups = s.groups
      ∧ s2.contextsTimes = s.contextsTimes
      ∧ s2.activeContextsIds = s.activeContextsIds := by
  intro L
  induction L with
  | nil =>
    intro v s s2 h
    simp only [ulGo] at h
    have : s = s2 := by simpa using h
    subst this
    exact ⟨rfl, rfl, rfl, rfl, rfl⟩
  | cons c0 rest ih =>
    intro v s s2 h
    simp only [ulGo] at h
    split at h
    · exact ih v s s2 h
    · split at h
      · simp at h
      · have hres := ih v _ s2 h
        exact hres

theorem ulGo_untouched : ∀ (L : List Nat) (v : List Layer) (s s2 : StoreState) (k : Nat),
    (∀ x ∈ L, x ≠ k) → ulGo v s L = .ok s2 →
    lookupNode s2.nodes k = lookupNode s.nodes k := by
  intro L
  induction L with
  | nil =>
    intro v s s2 k _ h
    simp only [ulGo] at h
    have : s = s2 := by simpa using h
    subst this
    rfl
  | cons c0 rest ih =>
    intro v s s2 k hne h
    have hc0k : c0 ≠ k := hne c0 (List.mem_cons_self c0 rest)
    have hrestne : ∀ x ∈ rest, x ≠ k := fun x hx => hne x (List.mem_cons_of_mem c0 hx)
    simp only [ulGo] at h
    split at h
    · exact ih v s s2 k hrestne h
    · next c hl =>
      have hcid : c.id = c0 := lookupNode_id hl
      split at h
      · simp at h
      · rw [ih v _ s2 k hrestne h]
        exact lookupNode_setNode_ne (by rw [hcid]; exact fun hk => hc0k hk.symm)

theorem ulGo_resolves : ∀ (L : List Nat) (v : List Layer) (s s2 : StoreState),
    L.Nodup → ulGo v s L = .ok s2 →
    ∀ cid ∈ L, ∀ n, lookupNode s.nodes cid = some n →
      lookupNode s2.nodes cid = some { n with layers := reResolveLayers v n.layers } := by
  intro L
  induction L with
  | nil =>
    intro v s s2 _ _ cid hcid
    simp at hcid
  | cons c0 rest ih =>
    intro v s s2 hnd h cid hcid n hn
    rw [List.nodup_cons] at hnd
    obtain ⟨hc0notin, hndrest⟩ := hnd
    simp only [ulGo] at h
    split at h
    · next hl =>
      rcases List.mem_cons.mp hcid with rfl | hcid2
      · rw [hl] at hn
        exact absurd hn (by simp)
      · exact ih v s s2 hndrest h cid hcid2 n hn
    · next c hl =>
      have hcid0 : c.id = c0 := lookupNode_id hl
      split at h
      · simp at h
      · rcases List.mem_cons.mp hcid with rfl | hcid2
        · have hrestne : ∀ x ∈ rest, x ≠ cid := fun x hx hxeq => hc0notin (hxeq ▸ hx)
          have hcn : c = n := Option.some.inj (hl.symm.trans hn)
          subst hcn
          have hunt := ulGo_untouched rest v _ s2 cid hrestne h
          rw [hunt]
          have hlid : lookupNode s.nodes
              ({ c with layers := reResolveLayers v c.layers } : Node).id = some c := by
            show lookupNode s.nodes c.id = some c
            rw [hcid0]
            exact hl
          have hself := lookupNode_setNode_self
            (m := c) (n := { c with layers := reResolveLayers v c.layers }) hlid
          rw [← hcid0]
          exact hself
        · have hcidne : cid ≠ c0 := fun hx => hc0notin (hx ▸ hcid2)
          have hmid : lookupNode (setNode s.nodes
              { c with layers := reResolveLayers v c.layers }) cid = some n := by
            rw [lookupNode_setNode_ne (by show cid ≠ c.id; rw [hcid0]; exact hcidne)]
            exact hn
          have hres := ih v _ s2 hndrest h cid hcid2 n hmid
          exact hres

/-! ### Facts about the layer re-resolution -/

theorem reResolve_mem {v : List Layer} {old : List (Option Layer)} :
    ∀ o ∈ reResolveLayers v old, ∃ l, o = some l ∧ l ∈ v := by
  intro o ho
  unfold reResolveLayers at ho
  rw [List.mem_filter] at ho
  obtain ⟨hmem, hsome⟩ := ho
  rw [List.mem_map] at hmem
  obtain ⟨x, _, hfx⟩ := hmem
  obtain ⟨l, hl⟩ := Option.isSome_iff_exists.mp hsome
  refine ⟨l, hl, ?_⟩
  rw [← hfx] at hl
  exact List.mem_of_find?_eq_some hl

theorem filterMap_id_filter_isSome (l : List (Option Layer)) :
    (l.filter Option.isSome).filterMap id = l.filterMap id := by
  induction l with
  | nil => rfl
  | cons o rest ih =>
    cases o with
    | none => simpa using ih
    | some a => simpa using ih

theorem resolveIds_eq (v : List Layer) : ∀ (xs : List Layer),
    ((xs.filterMap (fun x => v.find? (fun l => l.id == x.id))).map Layer.id)
      = (xs.map Layer.id).filter (fun i => (v.find? (fun l => l.id == i)).isSome) := by
  intro xs
  induction xs with
  | nil => rfl
  | cons x rest ih =>
    simp only [List.filterMap_cons, List.map_cons, List.filter_cons]
    cases hf : v.find? (fun l => l.id == x.id) with
    | none => simp [hf, ih]
    | some l =>
      have hl : l.id = x.id := by simpa using List.find?_some hf
      simp [hf, ih, hl]

theorem reResolve_ids (v : List Layer) (old : List (Option Layer)) :
    ((reResolveLayers v old).filterMap id).map Layer.id
      = ((old.filterMap id).map Layer.id).filter
          (fun i => (v.find? (fun l => l.id == i)).isSome) := by
  unfold reResolveLayers
  rw [filterMap_id_filter_isSome, List.filterMap_map]
  have : (id ∘ fun layer : Layer => v.find? (fun l => l.id == layer.id))
      = (fun layer : Layer => v.find? (fun l => l.id == layer.id)) := by
    funext layer
    rfl
  rw [this]
  exact resolveIds_eq v (old.filterMap id)

/-! ### Facts about `findById` and the reparent stamping -/

theorem findFromL_eq {ns : List Node} {target : Nat} :
    ∀ (fuel : Nat) (ids : List Nat) (r : Nat),
      findFromL ns target fuel ids = some r → r = target := by
  intro fuel
  induction fuel with
  | zero =>
    intro ids r h
    simp [findFromL] at h
  | succ f ih =>
    intro ids r h
    cases ids with
    | nil => simp [findFromL] at h
    | cons cid rest =>
      simp only [findFromL] at h
      split at h
      · exact ih rest r h
      · next n hl =>
        split at h
        · next hcond =>
          have : n.id = r := Option.some.inj h
          rw [← this, hcond]
        · split at h
          · split at h
            · next r2 hr2 =>
              have : r2 = r := Option.some.inj h
              rw [← this]
              exact ih n.items r2 hr2
            · exact ih rest r h
          · exact ih rest r h

theorem findById_eq {s : StoreState} {target r : Nat}
    (h : findById s target = some r) : r = target := by
  unfold findById at h
  split at h
  · simp at h
  · exact findFromL_eq _ _ r h

theorem lookupNode_stampParents : ∀ (vs : List Nat) (ns : List Node) (gid k : Nat),
    lookupNode (stampParents ns gid vs) k
      = (lookupNode ns k).map
          (fun n => if k ∈ vs then { n with parent := some gid } else n) := by
  intro vs
  induction vs with
  | nil =>
    intro ns gid k
    cases hlk : lookupNode ns k with
    | none => simp [stampParents, hlk]
    | some n => simp [stampParents, hlk]
  | cons v0 vs2 ih =>
    intro ns gid k
    have hcons : stampParents ns gid (v0 :: vs2)
        = stampParents (stampStep gid ns v0) gid vs2 := rfl
    rw [hcons, ih (stampStep gid ns v0) gid k]
    cases hl0 : lookupNode ns v0 with
    | none =>
      have hstep : stampStep gid ns v0 = ns := by
        simp [stampStep, hl0]
      rw [hstep]
      cases hlk : lookupNode ns k with
      | none => rfl
      | some n =>
        by_cases hk : k = v0
        · subst hk
          rw [hlk] at hl0
          simp at hl0
        · simp [List.mem_cons, hk]
    | some n0 =>
      have hn0id : n0.id = v0 := lookupNode_id hl0
      have hstep : stampStep gid ns v0 = setNode ns { n0 with parent := some gid } := by
        simp [stampStep, hl0]
      rw [hstep]
      by_cases hk : k = v0
      · subst hk
        have hlid : lookupNode ns ({ n0 with parent := some gid } : Node).id = some n0 := by
          show lookupNode ns n0.id = some n0
          rw [hn0id]
          exact hl0
        have hself := lookupNode_setNode_self (m := n0) hlid
        have hself2 : lookupNode (setNode ns { n0 with parent := some gid }) k
            = some { n0 with parent := some gid } := by
          rw [← hn0id]
          exact hself
        rw [hself2, hl0]
        by_cases hmem : k ∈ vs2
        · simp [hmem]
        · simp [hmem]
      · have hkne : k ≠ ({ n0 with parent := some gid } : Node).id := by
          show k ≠ n0.id
          rw [hn0id]
          exact hk
        rw [lookupNode_setNode_ne hkne]
        cases lookupNode ns k with
        | none => rfl
        | some n => simp [List.mem_cons, hk]

/-! ### Shape of the successful mutations -/

theorem update_group_ok {s : StoreState} {gid : Nat} {v : List Nat} {s2 : StoreState}
    (h : update_group s gid v = .ok s2) :
    ∃ g, lookupNode s.nodes gid = some g
      ∧ s2 = { s with nodes :=
          stampParents (setNode s.nodes { g with items := v }) g.id v } := by
  unfold update_group at h
  split at h
  · simp at h
  · split at h
    · simp at h
    · next nid hfind =>
      have hnid : nid = gid := findById_eq hfind
      subst hnid
      split at h
      · simp at h
      · next g hl =>
        exact ⟨g, hl, (Except.ok.inj h).symm⟩

theorem save_context_ok {s : StoreState} {p : SaveContextPayload} {s2 : StoreState}
    (h : save_context s p = .ok s2) :
    ∃ c, lookupNode s.nodes p.id = some c
      ∧ setContextsTimes
          { s with nodes := setNode s.nodes (savedContext c p s.layers) } = .ok s2 := by
  unfold save_context at h
  split at h
  · simp at h
  · split at h
    · simp at h
    · next nid hfind =>
      have hnid : nid = p.id := findById_eq hfind
      subst hnid
      split at h
      · simp at h
      · next c hl =>
        exact ⟨c, hl, h⟩

theorem update_layers_ok {s : StoreState} {v : List Layer} {s2 : StoreState}
    (h : update_layers s v = .ok s2) :
    ∃ s1, ulGo v { s with layers := v } s.contexts = .ok s1
      ∧ setContextsTimes s1 = .ok s2 := by
  unfold update_layers at h
  split at h
  · simp at h
  · next s1 heq => exact ⟨s1, heq, h⟩

theorem receive_layers_ok {s : StoreState} {conf : LayersConf} {s2 : StoreState}
    (h : receive_layers s conf = .ok s2) :
    ∃ s15, setContextsTimes { s with
        layers := conf.layers, contexts := conf.contexts,
        nodes := conf.nodes, groups := some conf.root } = .ok s15
      ∧ s2 = { s15 with activeContextsIds :=
          (contextList s15).foldl (fun a c => if c.active then a ++ [c.id] else a) [] } := by
  simp only [receive_layers] at h
  split at h
  · simp at h
  · next s15 heq =>
    exact ⟨s15, heq, (Except.ok.inj h).symm⟩

/-! ### Concrete states used by the claim instances -/

/-- A `wms` layer with times 2020-01-01 and 2020-01-02. -/
def exL1 : Layer := { id := 1, type := .wms, times := [⟨"2020-01-01"⟩, ⟨"2020-01-02"⟩] }

/-- A `wms` layer with times 2020-01-02 and 2020-01-03. -/
def exL2 : Layer := { id := 2, type := .wms, times := [⟨"2020-01-02"⟩, ⟨"2020-01-03"⟩] }

/-- The root group of the sample tree. -/
def exRoot : Node := { id := 0, isGroup := true, items := [10, 5] }

/-- A context holding both sample layers. -/
def exCtx : Node :=
  { id := 10, isGroup := false, parent := some 0,
    layers := [some exL1, some exL2], active := true }

/-- An empty subgroup. -/
def exGrp : Node := { id := 5, isGroup := true, parent := some 0 }

/-- A loaded sample state: catalog of two layers, one context, one subgroup. -/
def exS : StoreState :=
  { layers := [exL1, exL2], contexts := [10], groups := some 0,
    nodes := [exRoot, exCtx, exGrp], activeContextsIds := [10] }

/-- The state thrown by a failing mutation, when it failed. -/
def errorStateOf : Except StoreState StoreState → Option StoreState
  | .error e => some e
  | .ok _ => none

/-- The sample state after a Time Aggregator run. -/
def exSAfter : StoreState := ((setContextsTimes exS).toOption).getD exS

/-- The sample context after the Time Aggregator run. -/
def exCtxAfter : Node :=
  { exCtx with times := [⟨"2020-01-01"⟩, ⟨"2020-01-02"⟩, ⟨"2020-01-03"⟩] }

/-! ### The claims -/

/-- Claim C1 (code bug): the specification says `save_context` re-resolves
`layers` from the given ids dropping unresolved ids, so that no entry of the
resulting array is null/absent.  The code maps each id through
`state.layers.find(...)` with no `.filter(l => !!l)` (unlike `update_layers`),
so an unresolved id yields an `undefined` entry, and the subsequent
`setContextsTimes` recompute throws a `TypeError` on it.  On the sample state
(catalog ids 1 and 2) saving context 10 with `layerIds = [1, 99]` stores
`[layer 1, undefined]` and throws instead of dropping id 99. -/
theorem c1_save_context_unresolved_crash :
    resolveLayerIds [exL1, exL2] [1, 99] = [some exL1, none]
  ∧ (save_context exS { id := 10, layerIds := [1, 99] }).isOk = false
  ∧ ((errorStateOf (save_context exS { id := 10, layerIds := [1, 99] })).bind
      (fun e => (lookupNode e.nodes 10).map Node.layers)) = some [some exL1, none] := by
  decide

/-- Claim C2 (code bug): the specification says an operation whose
precondition fails (unresolved id for delete/reparent, deletion of the
parentless root) is a no-op and never raises.  `delete_item` dereferences
`item.parent` without a guard and `update_group` dereferences `group` in the
`forEach` outside its `if (group)` guard, so all three listed cases throw a
`TypeError` (modelled by `.error`, carrying the unchanged state); only
`edit_item` implements the guarded no-op policy. -/
theorem c2_missing_target_throws :
    delete_item exS 999 = .error exS
  ∧ delete_item exS 0 = .error exS
  ∧ update_group exS 999 [] = .error exS
  ∧ edit_item exS 999 = .ok { exS with editGroup := none, editContext := none } := by
  decide

/-- Claim C3: for every context the Time Aggregator concatenates the `times`
of its `wms` member layers having at least one time, de-duplicates by exact
ISO-8601 string equality (first occurrence wins), and sorts ascending by
parsed instant: the result holds exactly the concatenated entries, pairwise
sorted by `Date.parse` value and pairwise distinct as strings; on a context
with layers carrying [2020-01-01, 2020-01-02] and [2020-01-02, 2020-01-03]
the aggregated times are exactly [2020-01-01, 2020-01-02, 2020-01-03]. -/
theorem c3_time_aggregation :
    (∀ (ls : List (Option Layer)) (l : List TimeEntry), aggTimes ls = some l →
        (∀ t, t ∈ l ↔ ∃ lay, some lay ∈ ls ∧ lay.type = LayerType.wms
            ∧ lay.times ≠ [] ∧ t ∈ lay.times)
      ∧ List.Pairwise timeLE l
      ∧ List.Pairwise (fun a b => a.iso8601 ≠ b.iso8601) l)
  ∧ ((setContextsTimes exS).toOption.bind
        (fun s2 => (lookupNode s2.nodes 10).map Node.times)
      = some [⟨"2020-01-01"⟩, ⟨"2020-01-02"⟩, ⟨"2020-01-03"⟩]) := by
  exact ⟨fun ls l h => aggTimes_some_all h, by decide⟩

/-- Witness for claim C3 at a concrete input. -/
theorem c3_time_aggregation_witness :
    List.Pairwise timeLE
      [(⟨"2020-01-01"⟩ : TimeEntry), ⟨"2020-01-02"⟩, ⟨"2020-01-03"⟩] :=
  (c3_time_aggregation.1 [some exL1, some exL2]
    [⟨"2020-01-01"⟩, ⟨"2020-01-02"⟩, ⟨"2020-01-03"⟩] (by decide)).2.1

/-- Claim C4: after every operation that triggers the Time Aggregator
(save context, replace layer catalog, initial load), every context whose
recomputed times sequence is non-empty has its `contextsTimes` entry equal to
the last element of the sequence, which is a latest (maximal by parsed
instant) element; the recompute builds `contextsTimes` from scratch, so the
result does not depend on any previously stored entries (including ones set
by set-context-time). -/
theorem c4_latest_instant_full_recompute :
    (∀ (s s2 : StoreState), s.contexts.Nodup → setContextsTimes s = .ok s2 →
        TimesDerivedAt s2)
  ∧ (∀ (s : StoreState) (ct0 : List (Nat × TimeEntry)) (s2 : StoreState),
        setContextsTimes s = .ok s2 →
        setContextsTimes { s with contextsTimes := ct0 } = .ok s2)
  ∧ (∀ (s : StoreState) (p : SaveContextPayload) (s2 : StoreState),
        s.contexts.Nodup → save_context s p = .ok s2 → TimesDerivedAt s2)
  ∧ (∀ (s : StoreState) (v : List Layer) (s2 : StoreState),
        s.contexts.Nodup → update_layers s v = .ok s2 → TimesDerivedAt s2)
  ∧ (∀ (s : StoreState) (conf : LayersConf) (s2 : StoreState),
        conf.contexts.Nodup → receive_layers s conf = .ok s2 → TimesDerivedAt s2) := by
  refine ⟨?_, ?_, ?_, ?_, ?_⟩
  · intro s s2 hnd h
    exact setContextsTimes_entry hnd h
  · intro s ct0 s2 h
    exact setContextsTimes_ct_indep ct0 h
  · intro s p s2 hnd h
    obtain ⟨c, _, hset⟩ := save_context_ok h
    refine setContextsTimes_entry ?_ hset
    exact hnd
  · intro s v s2 hnd h
    obtain ⟨s1, hgo, hset⟩ := update_layers_ok h
    have hc : s1.contexts = s.contexts :=
      (ulGo_fields s.contexts v { s with layers := v } s1 hgo).1
    refine setContextsTimes_entry ?_ hset
    rw [hc]
    exact hnd
  · intro s conf s2 hnd h
    obtain ⟨s15, hset, hs2⟩ := receive_layers_ok h
    have hder : TimesDerivedAt s15 := by
      refine setContextsTimes_entry ?_ hset
      exact hnd
    rw [hs2]
    intro cid hcid n hn t ht
    exact hder cid hcid n hn t ht

/-- Witness for claim C4 at a concrete input. -/
theorem c4_latest_instant_witness :
    ctGet exSAfter.contextsTimes 10 = some ⟨"2020-01-03"⟩ :=
  (c4_latest_instant_full_recompute.1 exS exSAfter (by decide) (by decide)
    10 (by decide) exCtxAfter (by decide) ⟨"2020-01-03"⟩ (by decide)).1

/-- Claim C5: after replace-layer-catalog every context's layers array only
holds layers drawn from the new catalog, in the relative order of the
previously resolved layers, with stale ids removed and no null entries. -/
theorem c5_replace_catalog_integrity :
    ∀ (s : StoreState) (v : List Layer) (s2 : StoreState), s.contexts.Nodup →
      update_layers s v = .ok s2 →
      ∀ cid ∈ s.contexts, ∀ n n2, lookupNode s.nodes cid = some n →
        lookupNode s2.nodes cid = some n2 →
        (∀ o ∈ n2.layers, ∃ l, o = some l ∧ l ∈ v)
        ∧ (n2.layers.filterMap id).map Layer.id
            = ((n.layers.filterMap id).map Layer.id).filter
                (fun i => (v.find? (fun l => l.id == i)).isSome) := by
  intro s v s2 hnd h cid hcid n n2 hn hn2
  obtain ⟨s1, hgo, hset⟩ := update_layers_ok h
  have hres := ulGo_resolves s.contexts v { s with layers := v } s1 hnd hgo cid hcid n hn
  obtain ⟨s3, m, hgo2, hs2eq⟩ := setContextsTimes_ok hset
  have hlay := sctGo_layers_preserved s1.contexts [] s1 s3 m hgo2 cid
  have hn2b : lookupNode s3.nodes cid = some n2 := by
    rw [hs2eq] at hn2
    exact hn2
  rw [hn2b, hres] at hlay
  have hlayers : n2.layers = reResolveLayers v n.layers := by
    have := Option.some.inj hlay
    exact this
  constructor
  · intro o ho
    rw [hlayers] at ho
    exact reResolve_mem o ho
  · rw [hlayers]
    exact reResolve_ids v n.layers

/-- The sample state after replacing the catalog with just layer 2. -/
def exSUL : StoreState := ((update_layers exS [exL2]).toOption).getD exS

/-- The sample context after that catalog replacement. -/
def exCtxUL : Node := (lookupNode exSUL.nodes 10).getD exCtx

/-- Witness for claim C5 at a concrete input. -/
theorem c5_replace_catalog_witness :
    (exCtxUL.layers.filterMap id).map Layer.id
      = ((exCtx.layers.filterMap id).map Layer.id).filter
          (fun i => (([exL2] : List Layer).find? (fun l => l.id == i)).isSome) :=
  (c5_replace_catalog_integrity exS [exL2] exSUL (by decide) (by decide)
    10 (by decide) exCtx exCtxUL (by decide) (by decide)).2

/-- Claim C6: for a context id that resolves in the flat context list, one
toggle adds the id to `activeContextsIds` when absent and removes its (only)
occurrence when present, and toggling twice restores the prior membership
(as a set); the id-uniqueness invariant means the id occurs at most once. -/
theorem c6_toggle_active_context :
    ∀ (s : StoreState) (contextId : Nat),
      ((contextList s).find? (fun c => c.id == contextId)).isSome →
      s.activeContextsIds.count contextId ≤ 1 →
      ((contextId ∉ s.activeContextsIds →
          (toggle_context s contextId).activeContextsIds
            = s.activeContextsIds ++ [contextId])
        ∧ (contextId ∈ s.activeContextsIds →
          (toggle_context s contextId).activeContextsIds
            = s.activeContextsIds.erase contextId)
        ∧ (∀ x, x ∈ (toggle_context (toggle_context s contextId) contextId).activeContextsIds
            ↔ x ∈ s.activeContextsIds)) := by
  intro s cId hres hcount
  have hres2 : ((contextList s).find? (fun c => c.id == cId)).isSome = true := hres
  have htogEq : ∀ (st : StoreState), contextList st = contextList s →
      toggle_context st cId = if st.activeContextsIds.contains cId
        then { st with activeContextsIds := st.activeContextsIds.erase cId }
        else { st with activeContextsIds := st.activeContextsIds ++ [cId] } := by
    intro st hcl
    unfold toggle_context
    rw [hcl, if_pos hres2]
  refine ⟨?_, ?_, ?_⟩
  · intro hnotmem
    have hc : s.activeContextsIds.contains cId = false := by
      rw [← Bool.not_eq_true]
      intro hc2
      exact hnotmem (List.elem_iff.mp hc2)
    rw [htogEq s rfl, if_neg (by rw [hc]; simp)]
  · intro hmem
    have hc : s.activeContextsIds.contains cId = true := List.elem_iff.mpr hmem
    rw [htogEq s rfl, if_pos hc]
  · intro x
    by_cases hc : s.activeContextsIds.contains cId = true
    · have hmem : cId ∈ s.activeContextsIds := List.elem_iff.mp hc
      have hcount1 : s.activeContextsIds.count cId = 1 := by
        have := List.count_pos_iff.mpr hmem
        omega
      have herased : cId ∉ s.activeContextsIds.erase cId := by
        intro hc2
        have := List.count_pos_iff.mpr hc2
        rw [List.count_erase_self, hcount1] at this
        omega
      have hc2 : (s.activeContextsIds.erase cId).contains cId = false := by
        rw [← Bool.not_eq_true]
        intro hc3
        exact herased (List.elem_iff.mp hc3)
      have h2 : (toggle_context (toggle_context s cId) cId).activeContextsIds
          = (s.activeContextsIds.erase cId) ++ [cId] := by
        rw [htogEq s rfl, if_pos hc,
          htogEq { s with activeContextsIds := s.activeContextsIds.erase cId } rfl]
        simp [herased]
      rw [h2, List.mem_append, List.mem_singleton]
      by_cases hx : x = cId
      · subst hx
        simp [hmem]
      · rw [List.mem_erase_of_ne hx]
        simp [hx]
    · have hmem : cId ∉ s.activeContextsIds := fun hm => hc (List.elem_iff.mpr hm)
      have hcf : s.activeContextsIds.contains cId = false := by
        rw [← Bool.not_eq_true]
        exact hc
      have hcont2 : (s.activeContextsIds ++ [cId]).contains cId = true := by
        apply List.elem_iff.mpr
        rw [List.mem_append, List.mem_singleton]
        exact Or.inr rfl
      have h2 : (toggle_context (toggle_context s cId) cId).activeContextsIds
          = (s.activeContextsIds ++ [cId]).erase cId := by
        rw [htogEq s rfl, if_neg (by rw [hcf]; simp),
          htogEq { s with activeContextsIds := s.activeContextsIds ++ [cId] } rfl]
        simp
      rw [h2, List.erase_append_right _ hmem]
      simp

/-- Witness for claim C6 at a concrete input. -/
theorem c6_toggle_active_context_witness :
    10 ∈ (toggle_context (toggle_context exS 10) 10).activeContextsIds ↔
      10 ∈ exS.activeContextsIds :=
  (c6_toggle_active_context exS 10 (by decide) (by decide)).2.2 10

/-- A `wms` layer with no statistics field. -/
def exL4 : Layer := { id := 4, type := .wms }

/-- A `wms` layer whose statistics field is present but an empty array. -/
def exL3 : Layer := { id := 3, type := .wms, statistics := some [] }

/-- A root group for the statistics sample. -/
def exRoot7 : Node := { id := 0, isGroup := true, items := [20] }

/-- A context holding the two statistics-sample layers. -/
def exCtx7 : Node :=
  { id := 20, isGroup := false, parent := some 0,
    layers := [some exL4, some exL3], active := true }

/-- The statistics sample state. -/
def exS7 : StoreState :=
  { layers := [exL4, exL3], contexts := [20], groups := some 0,
    nodes := [exRoot7, exCtx7], activeContextsIds := [20] }

/-- The subset of `activeLayers` demanded by claim C7's wording: statistics
present AND non-empty. -/
def claimQueryable (s : StoreState) : List (Option Layer) :=
  (activeLayers s).filter (fun o =>
    match o with
    | some l => l.statistics.isSome && !(l.statistics.getD []).isEmpty
    | none => false)

/-- Claim C7 counterexample: the getter is
`activeLayers.filter(layer => layer.statistics)`, and an empty array is
truthy in JavaScript, so a layer with `statistics: []` is INCLUDED in
`queryableLayers`, contradicting the claim that layers with empty statistics
are excluded. -/
theorem c7_empty_statistics_included :
    exL3.statistics = some []
  ∧ queryableLayers exS7 = some [some exL3]
  ∧ queryableLayers exS7 ≠ some (claimQueryable exS7) := by
  decide

/-- Claim C7 amended: `queryableLayers` equals the subset of `activeLayers`
whose `statistics` field is present (possibly empty); a layer with no
statistics field is excluded. -/
theorem c7_queryable_has_statistics_field :
    ∀ (s : StoreState) (ql : List (Option Layer)), queryableLayers s = some ql →
      ∀ o, o ∈ ql ↔ o ∈ activeLayers s
        ∧ ∃ lay, o = some lay ∧ lay.statistics.isSome := by
  intro s ql h o
  unfold queryableLayers at h
  split at h
  · simp at h
  · have hql : ql = (activeLayers s).filter (fun o =>
        match o with
        | some l => l.statistics.isSome
        | none => false) := (Option.some.inj h).symm
    subst hql
    rw [List.mem_filter]
    constructor
    · rintro ⟨hmem, hp⟩
      refine ⟨hmem, ?_⟩
      cases o with
      | none => simp at hp
      | some lay => exact ⟨lay, rfl, hp⟩
    · rintro ⟨hmem, lay, rfl, hp⟩
      exact ⟨hmem, hp⟩

/-- Witness for the amended claim C7 at a concrete input. -/
theorem c7_queryable_witness :
    some exL3 ∈ activeLayers exS7
      ∧ ∃ lay, some exL3 = some lay ∧ lay.statistics.isSome :=
  (c7_queryable_has_statistics_field exS7 [some exL3] (by decide) (some exL3)).mp
    (by decide)

theorem update_group_lookup {s : StoreState} {gid : Nat} {value : List Nat}
    {s2 : StoreState} {g : Node} (h : update_group s gid value = .ok s2)
    (hg : lookupNode s.nodes gid = some g) (k : Nat) :
    lookupNode s2.nodes k
      = (lookupNode (setNode s.nodes { g with items := value }) k).map
          (fun n => if k ∈ value then { n with parent := some gid } else n) := by
  obtain ⟨g2, hg2, hs2⟩ := update_group_ok h
  have hgg : g2 = g := Option.some.inj (hg2.symm.trans hg)
  subst hgg
  have hgid : g2.id = gid := lookupNode_id hg
  rw [hs2]
  show lookupNode (stampParents (setNode s.nodes { g2 with items := value }) g2.id value) k = _
  rw [lookupNode_stampParents, hgid]

/-- Claim C8: reparenting a group replaces its `items` with the given list
and re-stamps the `parent` of every listed item to the group; consequently
moving one item from group G1 to group G2 (removing it from G1's list, then
adding it to G2's) shrinks G1's items by one, grows G2's items by one, and
leaves the moved item's parent pointing at G2. -/
theorem c8_reparent :
    (∀ (s : StoreState) (gid : Nat) (g : Node) (value : List Nat) (s2 : StoreState),
        update_group s gid value = .ok s2 → lookupNode s.nodes gid = some g →
        g.isGroup →
        (∀ n2, lookupNode s2.nodes gid = some n2 → n2.items = value)
        ∧ (∀ vid ∈ value, ∀ n2, lookupNode s2.nodes vid = some n2 →
            n2.parent = some gid))
  ∧ (∀ (s : StoreState) (g1 g2 x : Nat) (n1 n2 : Node) (s1 s2 : StoreState),
        g1 ≠ g2 → x ≠ g1 → x ≠ g2 →
        lookupNode s.nodes g1 = some n1 → lookupNode s.nodes g2 = some n2 →
        x ∈ n1.items → (lookupNode s.nodes x).isSome →
        update_group s g1 (n1.items.erase x) = .ok s1 →
        update_group s1 g2 (n2.items ++ [x]) = .ok s2 →
        (∀ m1, lookupNode s2.nodes g1 = some m1 →
            m1.items.length = n1.items.length - 1)
        ∧ (∀ m2, lookupNode s2.nodes g2 = some m2 →
            m2.items.length = n2.items.length + 1)
        ∧ (∀ mx, lookupNode s2.nodes x = some mx → mx.parent = some g2)) := by
  constructor
  · intro s gid g value s2 hrun hg _
    have hgid : g.id = gid := lookupNode_id hg
    have hRid : ({ g with items := value } : Node).id = gid := hgid
    have hgself : lookupNode (setNode s.nodes { g with items := value }) gid
        = some { g with items := value } := by
      have hlid : lookupNode s.nodes ({ g with items := value } : Node).id = some g := by
        rw [hRid]
        exact hg
      have h2 := lookupNode_setNode_self (m := g) hlid
      rw [← hRid]
      exact h2
    constructor
    · intro n2 hn2
      rw [update_group_lookup hrun hg gid, hgself] at hn2
      simp only [Option.map_some'] at hn2
      have hinj := Option.some.inj hn2
      rw [← hinj]
      by_cases hmem : gid ∈ value
      · simp [hmem]
      · simp [hmem]
    · intro vid hvid n2 hn2
      rw [update_group_lookup hrun hg vid] at hn2
      cases hbase : lookupNode (setNode s.nodes { g with items := value }) vid with
      | none =>
        rw [hbase] at hn2
        simp at hn2
      | some nb =>
        rw [hbase] at hn2
        simp only [Option.map_some'] at hn2
        have hinj := Option.some.inj hn2
        rw [← hinj]
        simp [hvid]
  · intro s g1 g2 x n1 n2 s1 s2 h12 hxg1 hxg2 hn1 hn2 hxmem hxsome hrun1 hrun2
    have hn1id : n1.id = g1 := lookupNode_id hn1
    have hn2id : n2.id = g2 := lookupNode_id hn2
    have hL1 := update_group_lookup hrun1 hn1
    have hR1id : ({ n1 with items := n1.items.erase x } : Node).id = g1 := hn1id
    have hne_g2_R1 : g2 ≠ ({ n1 with items := n1.items.erase x } : Node).id := by
      rw [hR1id]
      exact fun hh => h12 hh.symm
    have hs1g2 : lookupNode s1.nodes g2
        = some (if g2 ∈ n1.items.erase x then { n2 with parent := some g1 } else n2) := by
      rw [hL1 g2, lookupNode_setNode_ne hne_g2_R1, hn2]
      rfl
    obtain ⟨X, hXdef⟩ : ∃ X, (if g2 ∈ n1.items.erase x
        then ({ n2 with parent := some g1 } : Node) else n2) = X := ⟨_, rfl⟩
    rw [hXdef] at hs1g2
    have hXid : X.id = g2 := by
      rw [← hXdef]
      by_cases hmem : g2 ∈ n1.items.erase x
      · simp [hmem, hn2id]
      · simp [hmem, hn2id]
    have hL2 := update_group_lookup hrun2 hs1g2
    have hR2id : ({ X with items := n2.items ++ [x] } : Node).id = g2 := hXid
    refine ⟨?_, ?_, ?_⟩
    · intro m1 hm1
      have hne_g1_R2 : g1 ≠ ({ X with items := n2.items ++ [x] } : Node).id := by
        rw [hR2id]
        exact h12
      have hg1self : lookupNode (setNode s.nodes { n1 with items := n1.items.erase x }) g1
          = some { n1 with items := n1.items.erase x } := by
        have hlid : lookupNode s.nodes ({ n1 with items := n1.items.erase x } : Node).id
            = some n1 := by
          rw [hR1id]
          exact hn1
        have h2 := lookupNode_setNode_self (m := n1) hlid
        rw [← hR1id]
        exact h2
      rw [hL2 g1, lookupNode_setNode_ne hne_g1_R2, hL1 g1, hg1self] at hm1
      simp only [Option.map_some'] at hm1
      have hinj := Option.some.inj hm1
      rw [← hinj]
      by_cases hmem1 : g1 ∈ n1.items.erase x
      · by_cases hmem2 : g1 ∈ n2.items ++ [x]
        · simp [hmem1, hmem2, List.length_erase_of_mem hxmem]
        · simp [hmem1, hmem2, List.length_erase_of_mem hxmem]
      · by_cases hmem2 : g1 ∈ n2.items ++ [x]
        · simp [hmem1, hmem2, List.length_erase_of_mem hxmem]
        · simp [hmem1, hmem2, List.length_erase_of_mem hxmem]
    · intro m2 hm2
      have hXself : lookupNode (setNode s1.nodes { X with items := n2.items ++ [x] }) g2
          = some { X with items := n2.items ++ [x] } := by
        have hlid : lookupNode s1.nodes ({ X with items := n2.items ++ [x] } : Node).id
            = some X := by
          rw [hR2id]
          exact hs1g2
        have h2 := lookupNode_setNode_self (m := X) hlid
        rw [← hR2id]
        exact h2
      rw [hL2 g2, hXself] at hm2
      simp only [Option.map_some'] at hm2
      have hinj := Option.some.inj hm2
      rw [← hinj]
      by_cases hmem2 : g2 ∈ n2.items ++ [x]
      · simp [hmem2, List.length_append]
      · simp [hmem2, List.length_append]
    · intro mx hmx
      have hne_x_R2 : x ≠ ({ X with items := n2.items ++ [x] } : Node).id := by
        rw [hR2id]
        exact hxg2
      have hne_x_R1 : x ≠ ({ n1 with items := n1.items.erase x } : Node).id := by
        rw [hR1id]
        exact hxg1
      obtain ⟨nx, hnx⟩ := Option.isSome_iff_exists.mp hxsome
      rw [hL2 x, lookupNode_setNode_ne hne_x_R2, hL1 x,
        lookupNode_setNode_ne hne_x_R1, hnx] at hmx
      simp only [Option.map_some'] at hmx
      have hinj := Option.some.inj hmx
      rw [← hinj]
      have hxv2 : x ∈ n2.items ++ [x] := by
        rw [List.mem_append, List.mem_singleton]
        exact Or.inr rfl
      by_cases hmem1 : x ∈ n1.items.erase x
      · simp [hxv2, hmem1]
      · simp [hxv2, hmem1]

/-- The sample state after moving context 10 from the root group into
group 5 (the two reparent updates of a drag-and-drop). -/
def exSMoved : StoreState :=
  (((update_group exS 0 (exRoot.items.erase 10)).toOption).getD exS)
    |> (fun s1 => ((update_group s1 5 (exGrp.items ++ [10])).toOption).getD s1)

/-- Witness for claim C8 at a concrete input. -/
theorem c8_reparent_witness :
    ∀ mx, lookupNode exSMoved.nodes 10 = some mx → mx.parent = some 5 :=
  (c8_reparent.2 exS 0 5 10 exRoot exGrp
    (((update_group exS 0 (exRoot.items.erase 10)).toOption).getD exS) exSMoved
    (by decide) (by decide) (by decide) (by decide) (by decide) (by decide)
    (by decide) (by decide) (by decide)).2.2

theorem edit_item_resolved {s : StoreState} {id nid : Nat} {n : Node} {s2 : StoreState}
    (hfind : findById s id = some nid) (hlook : lookupNode s.nodes nid = some n)
    (hrun : edit_item s id = .ok s2) :
    s2 = (if n.isGroup then { s with editGroup := some n.id }
          else { s with editContext := some n.id }) := by
  unfold edit_item at hrun
  split at hrun
  · simp at hrun
  · split at hrun
    · next nid2 hfind2 =>
      have hnid : nid2 = nid := Option.some.inj (hfind2.symm.trans hfind)
      subst hnid
      split at hrun
      · next n2 hlook2 =>
        have hn : n2 = n := Option.some.inj (hlook2.symm.trans hlook)
        subst hn
        split at hrun
        · next hgTrue =>
          rw [if_pos hgTrue]
          exact (Except.ok.inj hrun).symm
        · next hgFalse =>
          rw [if_neg hgFalse]
          exact (Except.ok.inj hrun).symm
      · next hlooknone =>
        rw [hlooknone] at hlook
        simp at hlook
    · next hfindnone =>
      rw [hfindnone] at hfind
      simp at hfind

theorem edit_item_unresolved {s : StoreState} {id : Nat} {s2 : StoreState}
    (hfind : findById s id = none) (hrun : edit_item s id = .ok s2) :
    s2 = { s with editGroup := none, editContext := none } := by
  unfold edit_item at hrun
  split at hrun
  · simp at hrun
  · split at hrun
    · next nid2 hfind2 =>
      rw [hfind] at hfind2
      simp at hfind2
    · exact (Except.ok.inj hrun).symm

/-- Claim C10: an edit-select whose id resolves updates only the editing
reference matching the node's kind (a Group sets `editGroup` and leaves
`editContext` untouched, a Context sets `editContext` and leaves `editGroup`
untouched), so selecting a Group and then a Context leaves both references
simultaneously non-null; only an edit-select whose id does not resolve
clears both references. -/
theorem c10_edit_select_frame :
    (∀ (s : StoreState) (id nid : Nat) (n : Node) (s2 : StoreState),
        findById s id = some nid → lookupNode s.nodes nid = some n →
        edit_item s id = .ok s2 →
        (n.isGroup = true → s2.editGroup = some n.id ∧ s2.editContext = s.editContext)
        ∧ (n.isGroup = false → s2.editContext = some n.id ∧ s2.editGroup = s.editGroup))
  ∧ (∀ (s : StoreState) (id : Nat) (s2 : StoreState),
        findById s id = none → edit_item s id = .ok s2 →
        s2.editGroup = none ∧ s2.editContext = none)
  ∧ (∀ (s : StoreState) (id1 id2 : Nat) (n1 n2 : Node) (s1 s2 : StoreState),
        findById s id1 = some id1 → lookupNode s.nodes id1 = some n1 →
        n1.isGroup = true →
        findById s id2 = some id2 → lookupNode s.nodes id2 = some n2 →
        n2.isGroup = false →
        edit_item s id1 = .ok s1 → edit_item s1 id2 = .ok s2 →
        s2.editGroup = some n1.id ∧ s2.editContext = some n2.id) := by
  refine ⟨?_, ?_, ?_⟩
  · intro s id nid n s2 hfind hlook hrun
    have hs2 := edit_item_resolved hfind hlook hrun
    constructor
    · intro hg
      rw [if_pos hg] at hs2
      rw [hs2]
      exact ⟨rfl, rfl⟩
    · intro hg
      rw [if_neg (by rw [hg]; simp)] at hs2
      rw [hs2]
      exact ⟨rfl, rfl⟩
  · intro s id s2 hfind hrun
    rw [edit_item_unresolved hfind hrun]
    exact ⟨rfl, rfl⟩
  · intro s id1 id2 n1 n2 s1 s2 hf1 hl1 hg1 hf2 hl2 hg2 hrun1 hrun2
    have hs1 := edit_item_resolved hf1 hl1 hrun1
    rw [if_pos hg1] at hs1
    have hf2b : findById s1 id2 = some id2 := by
      rw [hs1]
      exact hf2
    have hl2b : lookupNode s1.nodes id2 = some n2 := by
      rw [hs1]
      exact hl2
    have hs2 := edit_item_resolved hf2b hl2b hrun2
    rw [if_neg (by rw [hg2]; simp)] at hs2
    rw [hs2, hs1]
    exact ⟨rfl, rfl⟩

/-- The sample state after selecting group 5 for editing. -/
def exSE1 : StoreState := ((edit_item exS 5).toOption).getD exS

/-- The sample state after then selecting context 10 for editing. -/
def exSE2 : StoreState := ((edit_item exSE1 10).toOption).getD exSE1

/-- Witness for claim C10 at a concrete input. -/
theorem c10_edit_select_witness :
    exSE2.editGroup = some 5 ∧ exSE2.editContext = some 10 :=
  c10_edit_select_frame.2.2 exS 5 10 exGrp exCtx exSE1 exSE2
    (by decide) (by decide) (by decide) (by decide) (by decide) (by decide)
    (by decide) (by decide)

/-! ### The Schema Validator

The configuration schema is the JSON-Schema document of the repository
(draft-04).  The schema file is translated clause by clause below; the
draft-04 engine semantics (closed objects via `additionalProperties: false`,
`required`, `enum`, `oneOf` as exactly-one, and object keywords holding
vacuously for non-object instances) are modelled from the specification
(§4.1), since no validator implementation is among the analysed sources.
Validation returns a structured list of (path, reason) violations; an empty
list is acceptance. -/

/-- A JSON value. -/
inductive JVal where
  | null
  | bool (b : Bool)
  | num (n : Int)
  | str (s : String)
  | arr (xs : List JVal)
  | obj (fields : List (String × JVal))
deriving Repr

/-- A structured schema violation: the offending path and a reason. -/
structure Violation where
  path : List String
  reason : String
deriving DecidableEq, Repr

def isObj : JVal → Bool
  | .obj _ => true
  | _ => false

def objFields : JVal → List (String × JVal)
  | .obj f => f
  | _ => []

def isStr : JVal → Bool
  | .str _ => true
  | _ => false

def isNum : JVal → Bool
  | .num _ => true
  | _ => false

def isBool : JVal → Bool
  | .bool _ => true
  | _ => false

/-- The `enum: [s]` keyword on a string constant. -/
def strEnum (s : String) : JVal → Bool
  | .str s2 => s2 == s
  | _ => false

/-- The `type: array, items: p` keywords. -/
def arrayOf (p : JVal → Bool) : JVal → Bool
  | .arr xs => xs.all p
  | _ => false

/-- Read a property of a JSON object (first occurrence). -/
def jlookup (fields : List (String × JVal)) (k : String) : Option JVal :=
  (fields.find? (fun p => p.1 == k)).map Prod.snd

/-- One property against a declaration list: declared properties must match
their schema, undeclared ones are rejected (`additionalProperties: false`). -/
def propOk (decl : List (String × (JVal → Bool))) (p : String × JVal) : Bool :=
  match decl.find? (fun d => d.1 == p.1) with
  | some d => d.2 p.2
  | none => false

/-- The `properties` + `additionalProperties: false` + `required` keywords.
Draft-04 object keywords hold vacuously on non-object instances. -/
def objKeywordsOk (decl : List (String × (JVal → Bool))) (req : List String) :
    JVal → Bool
  | .obj fields =>
    fields.all (propOk decl) && req.all (fun k => fields.any (fun p => p.1 == k))
  | _ => true

/-- `oneOf`: the number of matching branch schemas. -/
def oneOfCount (bs : List Bool) : Nat :=
  bs.foldl (fun n b => if b then n + 1 else n) 0

/-- The schema's `labels` entry shape. -/
def checkLabelEntry : JVal → Bool :=
  objKeywordsOk [("language", isStr), ("label", isStr)] ["language", "label"]

/-- The schema's `labels` definition. -/
def checkLabels : JVal → Bool :=
  arrayOf checkLabelEntry

/-- The schema's `wmsLegend` definition. -/
def checkWmsLegend : JVal → Bool :=
  objKeywordsOk [("type", strEnum "wms"), ("style", isStr)] ["type", "style"]

/-- The schema's `urlLegend` definition. -/
def checkUrlLegend : JVal → Bool :=
  objKeywordsOk [("type", strEnum "url"), ("url", isStr)] ["type", "url"]

/-- The `legend` property: an object matching exactly one legend variant. -/
def checkLegend (v : JVal) : Bool :=
  isObj v && oneOfCount [checkWmsLegend v, checkUrlLegend v] == 1

/-- An entry of `attributesStatistics.attributes`. -/
def checkStatAttrEntry : JVal → Bool :=
  objKeywordsOk [("labels", checkLabels), ("attribute", isStr)]
    ["labels", "attribute"]

/-- The schema's `attributesStatistics` definition. -/
def checkAttrStat (v : JVal) : Bool :=
  isObj v && objKeywordsOk
    [("type", strEnum "attributes"), ("labels", checkLabels),
     ("attributes", arrayOf checkStatAttrEntry)] ["type"] v

/-- The schema's `urlStatistics` definition. -/
def checkUrlStat (v : JVal) : Bool :=
  isObj v && objKeywordsOk
    [("type", strEnum "url"), ("labels", checkLabels), ("url", isStr)]
    ["type", "url"] v

/-- The `statistics` property: an array of statistics variants. -/
def checkStatistics : JVal → Bool :=
  arrayOf (fun v => oneOfCount [checkAttrStat v, checkUrlStat v] == 1)

/-- Consume exactly `n` decimal digits. -/
def takeDigits : Nat → List Char → Option (List Char)
  | 0, rest => some rest
  | _ + 1, [] => none
  | n + 1, c :: rest => if c.isDigit then takeDigits n rest else none

/-- The optional timezone designator `Z | ±HH:MM` of the times pattern. -/
def isoOffsetOk : List Char → Bool
  | [] => true
  | 'Z' :: rest => rest.isEmpty
  | c :: rest =>
    (c == '+' || c == '-') &&
      (match takeDigits 2 rest with
       | some (':' :: r2) =>
         (match takeDigits 2 r2 with
          | some [] => true
          | _ => false)
       | _ => false)

/-- The optional fractional seconds, then the offset. -/
def isoFracTail : List Char → Bool
  | '.' :: rest =>
    !(rest.takeWhile Char.isDigit).isEmpty
      && isoOffsetOk (rest.dropWhile Char.isDigit)
  | cs => isoOffsetOk cs

/-- The time-of-day part `HH:MM[:SS[.f+]]` with optional offset. -/
def isoTimeOk (cs : List Char) : Bool :=
  match takeDigits 2 cs with
  | some (':' :: r1) =>
    (match takeDigits 2 r1 with
     | some (':' :: r3) =>
       (match takeDigits 2 r3 with
        | some r4 => isoFracTail r4
        | none => false)
     | some r2 => isoOffsetOk r2
     | none => false)
  | _ => false

/-- The schema's ISO-8601 `pattern` on `times` entries. -/
def isoDateTimeOk (s : String) : Bool :=
  match takeDigits 4 s.data with
  | some [] => true
  | some ('-' :: r1) =>
    (match takeDigits 2 r1 with
     | some [] => true
     | some ('-' :: r2) =>
       (match takeDigits 2 r2 with
        | some [] => true
        | some ('T' :: r3) => isoTimeOk r3
        | _ => false)
     | _ => false)
  | _ => false

/-- The `times` property: an array of pattern-matching strings. -/
def checkTimes : JVal → Bool :=
  arrayOf (fun v =>
    match v with
    | .str s => isoDateTimeOk s
    | _ => false)

/-- The declared properties of the schema's `wms` definition. -/
def wmsDecl : List (String × (JVal → Bool)) :=
  [("type", strEnum "wms"), ("id", isNum), ("serverUrls", arrayOf isStr),
   ("name", isStr), ("imageFormat", isStr), ("legend", checkLegend),
   ("sourceLink", isStr), ("sourceLabel", isStr), ("times", checkTimes),
   ("styles", checkLabels), ("visible", isBool), ("statistics", checkStatistics)]

/-- The schema's `wms` definition: `required: [id, name, serverUrls]`. -/
def checkWms (v : JVal) : Bool :=
  isObj v && objKeywordsOk wmsDecl ["id", "name", "serverUrls"] v

/-- The schema's `bingAerial` definition: `required: [type, id]`. -/
def checkBing (v : JVal) : Bool :=
  isObj v && objKeywordsOk
    [("type", strEnum "bing-aerial"), ("id", isNum), ("visible", isBool)]
    ["type", "id"] v

/-- The schema's `osm` definition: `required: [type, id]`. -/
def checkOsm (v : JVal) : Bool :=
  isObj v && objKeywordsOk
    [("type", strEnum "osm"), ("id", isNum), ("visible", isBool)]
    ["type", "id"] v

/-- `oneOf` over the three layer variants. -/
def layerMatchCount (v : JVal) : Nat :=
  oneOfCount [checkWms v, checkBing v, checkOsm v]

/-- The shape of a `contexts` entry: `required: [id]`, closed. -/
def checkContext (v : JVal) : Bool :=
  isObj v && objKeywordsOk
    [("id", isNum), ("infoFile", isStr), ("labels", checkLabels),
     ("inlineLegendUrl", isStr), ("downloadUrl", isStr),
     ("layers", arrayOf isNum), ("active", isBool)] ["id"] v

/-- The schema's `context` tree-node wrapper. -/
def checkContextRef (v : JVal) : Bool :=
  isObj v && objKeywordsOk [("context", isNum)] ["context"] v

/-- The inner object of the schema's `group` definition, parameterised by the
checker of its recursive `items` property. -/
def innerGroupOkF (itemsChk : JVal → Bool) (v : JVal) : Bool :=
  isObj v && objKeywordsOk
    [("labels", checkLabels), ("infoFile", isStr), ("exclusive", isBool),
     ("items", itemsChk)] ["labels"] v

/-- The schema's `group` tree-node wrapper, parameterised likewise. -/
def groupWrapOkF (itemsChk : JVal → Bool) (v : JVal) : Bool :=
  isObj v && objKeywordsOk [("group", innerGroupOkF itemsChk)] ["group"] v

/-- The schema's recursive `items` definition, with fuel bounding the group
nesting depth. -/
def itemsOk (fuel : Nat) : JVal → Bool :=
  Nat.rec (motive := fun _ => JVal → Bool)
    (fun _ => false)
    (fun _ ih v =>
      match v with
      | .arr xs => xs.all (fun it => isObj it
          && oneOfCount [groupWrapOkF ih it, checkContextRef it] == 1)
      | _ => false)
    fuel

mutual

/-- Nesting depth of a JSON value, used to bound the fuel of `itemsOk`. -/
def jdepth : JVal → Nat
  | .arr xs => jdepthList xs + 1
  | .obj fs => jdepthFields fs + 1
  | _ => 1

/-- Nesting depth of a list of JSON values. -/
def jdepthList : List JVal → Nat
  | [] => 0
  | x :: xs => max (jdepth x) (jdepthList xs)

/-- Nesting depth of a list of JSON object fields. -/
def jdepthFields : List (String × JVal) → Nat
  | [] => 0
  | (_, v) :: ps => max (jdepth v) (jdepthFields ps)

end

/-- The top-level `group` property (root wrapper: `items`, `exclusive`). -/
def checkRootGroup (v : JVal) : Bool :=
  isObj v && objKeywordsOk
    [("items", fun w => itemsOk (jdepth w) w), ("exclusive", isBool)] [] v

/-- The declared top-level keys of the configuration schema. -/
def declaredTop : List String := ["$schema", "layers", "contexts", "group"]

/-- The required top-level keys. -/
def requiredTop : List String := ["layers", "contexts", "group"]

/-- Per-item validation of the `layers` array, carrying the running index. -/
def validateLayersFrom : Nat → List JVal → List Violation
  | _, [] => []
  | i, item :: rest =>
    (if layerMatchCount item == 1 then []
     else [⟨["layers", toString i], "must match exactly one layer variant"⟩])
      ++ validateLayersFrom (i + 1) rest

/-- Per-item validation of the `contexts` array. -/
def validateContextsFrom : Nat → List JVal → List Violation
  | _, [] => []
  | i, item :: rest =>
    (if checkContext item then []
     else [⟨["contexts", toString i], "does not match the context schema"⟩])
      ++ validateContextsFrom (i + 1) rest

/-- Validate a configuration document against the schema, producing the
structured violation list (empty means accepted). -/
def validate (doc : JVal) : List Violation :=
  match doc with
  | .obj fields =>
    (fields.filterMap (fun p =>
        if declaredTop.contains p.1 then none
        else some ⟨[p.1], "additional property not allowed"⟩))
    ++ (requiredTop.filterMap (fun k =>
        if fields.any (fun p => p.1 == k) then none
        else some ⟨[], "missing required property " ++ k⟩))
    ++ (match jlookup fields "$schema" with
        | none => []
        | some v => if isStr v then [] else [⟨["$schema"], "must be a string"⟩])
    ++ (match jlookup fields "layers" with
        | none => []
        | some (.arr xs) => validateLayersFrom 0 xs
        | some _ => [⟨["layers"], "must be an array"⟩])
    ++ (match jlookup fields "contexts" with
        | none => []
        | some (.arr xs) => validateContextsFrom 0 xs
        | some _ => [⟨["contexts"], "must be an array"⟩])
    ++ (match jlookup fields "group" with
        | none => []
        | some v => if checkRootGroup v then []
                    else [⟨["group"], "does not match the group schema"⟩])
  | _ => [⟨[], "must be an object"⟩]

/-- The string value of a layers entry's `type` property, if any; used to
tell the `oneOf` layer variants apart. -/
def layerTypeName (v : JVal) : Option String :=
  match jlookup (objFields v) "type" with
  | some (.str s) => some s
  | _ => none

lemma any_eq_false_of_find?_none {α} (p : α → Bool) :
    ∀ l : List α, l.find? p = none → l.any p = false := by
  intro l
  induction l with
  | nil => intro _; rfl
  | cons x rest ih =>
    intro h
    cases hpx : p x with
    | true =>
      rw [List.find?_cons_of_pos _ hpx] at h
      exact Option.noConfusion h
    | false =>
      rw [List.find?_cons_of_neg _ (by simp [hpx])] at h
      simp [List.any_cons, hpx, ih h]

lemma all_eq_false_of_mem {α} (p : α → Bool) {l : List α} {x : α}
    (hx : x ∈ l) (hpx : p x = false) : l.all p = false := by
  induction l with
  | nil => exact absurd hx (List.not_mem_nil x)
  | cons y rest ih =>
    rw [List.all_cons]
    rcases List.mem_cons.mp hx with h | h
    · rw [← h, hpx]
      rfl
    · rw [ih h, Bool.and_false]

lemma objKeywordsOk_false_of_required (fs : List (String × JVal))
    (decl : List (String × (JVal → Bool))) (req : List String) (k : String)
    (hk : k ∈ req) (h : jlookup fs k = none) :
    objKeywordsOk decl req (.obj fs) = false := by
  have hfind : fs.find? (fun p => p.1 == k) = none := by
    simp only [jlookup, Option.map_eq_none'] at h
    exact h
  have hany := any_eq_false_of_find?_none (fun p : String × JVal => p.1 == k) fs hfind
  have hreq : (req.all fun k2 => fs.any fun p => p.1 == k2) = false :=
    all_eq_false_of_mem _ hk hany
  simp [objKeywordsOk, hreq]

lemma checkVariant_false (fs : List (String × JVal)) (s : String)
    (rest : List (String × (JVal → Bool)))
    (h : layerTypeName (.obj fs) ≠ some s) :
    objKeywordsOk (("type", strEnum s) :: rest) ["type", "id"] (.obj fs) = false := by
  cases hfind : fs.find? (fun p : String × JVal => p.1 == "type") with
  | none =>
    have hany := any_eq_false_of_find?_none (fun p : String × JVal => p.1 == "type") fs hfind
    have hreq : (["type", "id"].all fun k => fs.any fun p => p.1 == k) = false :=
      all_eq_false_of_mem _ (List.mem_cons_self _ _) hany
    simp [objKeywordsOk, hreq]
  | some p =>
    obtain ⟨k2, v2⟩ := p
    have hmem : (k2, v2) ∈ fs := List.mem_of_find?_eq_some hfind
    have hkey := List.find?_some hfind
    have hk2 : k2 = "type" := eq_of_beq hkey
    subst hk2
    have hjl : jlookup fs "type" = some v2 := by
      show (fs.find? (fun p => p.1 == "type")).map Prod.snd = some v2
      rw [hfind]
      rfl
    have hpf : propOk (("type", strEnum s) :: rest) ("type", v2) = false := by
      have hred : propOk (("type", strEnum s) :: rest) ("type", v2) = strEnum s v2 := rfl
      rw [hred]
      cases v2 with
      | str t =>
        have hlt : layerTypeName (.obj fs) = some t := by
          simp [layerTypeName, objFields, hjl]
        have hts : t ≠ s := fun he => h (by rw [hlt, he])
        simp [strEnum, hts]
      | null => rfl
      | bool b => rfl
      | num n => rfl
      | arr xs => rfl
      | obj f2 => rfl
    have hall : fs.all (propOk (("type", strEnum s) :: rest)) = false :=
      all_eq_false_of_mem _ hmem hpf
    simp [objKeywordsOk, hall]

lemma checkBing_false (v : JVal) (h : layerTypeName v ≠ some "bing-aerial") :
    checkBing v = false := by
  cases v with
  | obj fs =>
    have hko := checkVariant_false fs "bing-aerial" [("id", isNum), ("visible", isBool)] h
    simp [checkBing, hko]
  | null => rfl
  | bool b => rfl
  | num n => rfl
  | str s => rfl
  | arr xs => rfl

lemma checkOsm_false (v : JVal) (h : layerTypeName v ≠ some "osm") :
    checkOsm v = false := by
  cases v with
  | obj fs =>
    have hko := checkVariant_false fs "osm" [("id", isNum), ("visible", isBool)] h
    simp [checkOsm, hko]
  | null => rfl
  | bool b => rfl
  | num n => rfl
  | str s => rfl
  | arr xs => rfl

lemma checkWms_false (v : JVal)
    (h : jlookup (objFields v) "serverUrls" = none
      ∨ jlookup (objFields v) "name" = none
      ∨ jlookup (objFields v) "id" = none) :
    checkWms v = false := by
  cases v with
  | obj fs =>
    have hko : objKeywordsOk wmsDecl ["id", "name", "serverUrls"] (.obj fs) = false := by
      rcases h with h | h | h
      · exact objKeywordsOk_false_of_required fs wmsDecl _ "serverUrls" (by simp) h
      · exact objKeywordsOk_false_of_required fs wmsDecl _ "name" (by simp) h
      · exact objKeywordsOk_false_of_required fs wmsDecl _ "id" (by simp) h
    simp [checkWms, hko]
  | null => rfl
  | bool b => rfl
  | num n => rfl
  | str s => rfl
  | arr xs => rfl

lemma layerMatchCount_zero (v : JVal) (hw : checkWms v = false)
    (hb : checkBing v = false) (ho : checkOsm v = false) :
    layerMatchCount v = 0 := by
  show oneOfCount [checkWms v, checkBing v, checkOsm v] = 0
  rw [hw, hb, ho]
  rfl

lemma validateLayersFrom_mem (item : JVal) (hne : layerMatchCount item ≠ 1) :
    ∀ (xs : List JVal) (j i : Nat), xs.get? i = some item →
    (⟨["layers", toString (j + i)], "must match exactly one layer variant"⟩ : Violation)
      ∈ validateLayersFrom j xs := by
  intro xs
  induction xs with
  | nil =>
    intro j i hget
    cases i <;> exact Option.noConfusion hget
  | cons x rest ih =>
    intro j i hget
    cases i with
    | zero =>
      have hx : x = item := Option.some.inj hget
      subst hx
      have hbeq : (layerMatchCount x == 1) = false := beq_eq_false_iff_ne.mpr hne
      simp only [validateLayersFrom, hbeq, Bool.false_eq_true, if_false, Nat.add_zero]
      exact List.mem_append_left _ (List.mem_cons_self _ _)
    | succ i2 =>
      rw [List.get?_cons_succ] at hget
      have hres := ih (j + 1) i2 hget
      rw [show j + (i2 + 1) = (j + 1) + i2 from by omega]
      simp only [validateLayersFrom]
      exact List.mem_append_right _ hres

/-- Claim C9: the validator rejects every document with an undeclared
top-level key, reporting a violation at that key's path; and rejects every
document whose `layers` array has an entry that is not a `bing-aerial` or
`osm` layer and lacks `serverUrls`, `name` or `id`, reporting a violation at
that entry's path. -/
theorem c9_schema_rejection :
    (∀ (fields : List (String × JVal)) (k : String) (v : JVal),
        (k, v) ∈ fields → declaredTop.contains k = false →
        ∃ viol ∈ validate (.obj fields), viol.path = [k]) ∧
    (∀ (fields : List (String × JVal)) (xs : List JVal) (i : Nat) (item : JVal),
        jlookup fields "layers" = some (.arr xs) →
        xs.get? i = some item →
        layerTypeName item ≠ some "bing-aerial" →
        layerTypeName item ≠ some "osm" →
        (jlookup (objFields item) "serverUrls" = none
          ∨ jlookup (objFields item) "name" = none
          ∨ jlookup (objFields item) "id" = none) →
        ∃ viol ∈ validate (.obj fields), viol.path = ["layers", toString i]) := by
  constructor
  · intro fields k v hmem hk
    refine ⟨⟨[k], "additional property not allowed"⟩, ?_, rfl⟩
    simp only [validate]
    refine List.mem_append_left _ (List.mem_append_left _ (List.mem_append_left _
      (List.mem_append_left _ (List.mem_append_left _ ?_))))
    have hk2 : ¬ (declaredTop.contains k = true) := by
      rw [hk]
      exact Bool.false_ne_true
    exact List.mem_filterMap.mpr ⟨(k, v), hmem, if_neg hk2⟩
  · intro fields xs i item hlayers hget hb ho hmiss
    have hw := checkWms_false item hmiss
    have hb2 := checkBing_false item hb
    have ho2 := checkOsm_false item ho
    have hzero := layerMatchCount_zero item hw hb2 ho2
    have hne : layerMatchCount item ≠ 1 := by rw [hzero]; decide
    have h4 := validateLayersFrom_mem item hne xs 0 i hget
    rw [Nat.zero_add] at h4
    refine ⟨⟨["layers", toString i], "must match exactly one layer variant"⟩, ?_, rfl⟩
    simp only [validate]
    rw [hlayers]
    exact List.mem_append_left _ (List.mem_append_left _ (List.mem_append_right _ h4))

/-- A layers entry declaring itself a wms layer but lacking `serverUrls`. -/
def exBadLayer : JVal :=
  .obj [("type", .str "wms"), ("id", .num 3), ("name", .str "Rivers")]

/-- A configuration document with an undeclared top-level key and the
defective layer above. -/
def exBadFields : List (String × JVal) :=
  [("extra", .bool true), ("layers", .arr [exBadLayer]),
   ("contexts", .arr []), ("group", .obj [])]

theorem c9_schema_rejection_witness :
    (("extra", JVal.bool true) ∈ exBadFields
      ∧ declaredTop.contains "extra" = false
      ∧ jlookup exBadFields "layers" = some (.arr [exBadLayer])
      ∧ jlookup (objFields exBadLayer) "serverUrls" = none)
    ∧ (∃ viol ∈ validate (.obj exBadFields), viol.path = ["extra"])
    ∧ (∃ viol ∈ validate (.obj exBadFields), viol.path = ["layers", toString 0]) :=
  ⟨⟨List.mem_cons_self _ _, by decide, rfl, rfl⟩,
   c9_schema_rejection.1 exBadFields "extra" (.bool true) (List.mem_cons_self _ _) (by decide),
   c9_schema_rejection.2 exBadFields [exBadLayer] 0 exBadLayer rfl rfl (by decide) (by decide)
     (Or.inl rfl)⟩
